import Mathlib

/-!
Shallow embedding of the comparison / clustering / delta-synthesis core of the
completion-ml-engine repository (BasicGraphBuilder and BasicSuggestionEngine),
together with theorems settling the frozen claims about it.

Numbers that are JavaScript floats in the source (confidences, weights,
scores) are modelled as rationals; character offsets as integers.  JavaScript
strings are modelled as Lean strings, with the operations used by the source
(toLowerCase, trim, includes, split, regex scans over the three list-item
patterns) translated explicitly below.
-/

namespace CompletionEngine

/-- Character offset range in a document (source: interface Span, fields
start and end; end is a Lean keyword, rendered stop). -/
structure Span where
  start : Int
  stop : Int
deriving DecidableEq, Repr

/-- Source: interface NameAndRole. -/
structure NameAndRole where
  role : String
  person : String
  span : Span
  conf : ℚ
deriving DecidableEq, Repr

/-- Source: interface DateProperty. -/
structure DateProperty where
  iso : String
  surface : String
  span : Span
  conf : ℚ
deriving DecidableEq, Repr

/-- Source: interface TermProperty.  The source type of value is
number | string; the claims never depend on numeric formatting, so the
value is modelled as a string (strict === comparison preserved). -/
structure TermProperty where
  name : String
  value : String
  unit : Option String
  span : Span
  conf : ℚ
deriving DecidableEq, Repr

/-- The three property kinds (source union 'Name&Role' | 'Date' | 'Terms'). -/
inductive PropKind where
  | nameRole
  | date
  | terms
deriving DecidableEq, Repr

/-- String key of a property kind, as used in the source for record keys and
for the fallback dedup key. -/
def propName : PropKind → String
  | .nameRole => "Name&Role"
  | .date => "Date"
  | .terms => "Terms"

/-- Source: interface SectionInventory (keys 'Name&Role', Date, Terms). -/
structure SectionInventory where
  nameRole : List NameAndRole
  date : List DateProperty
  terms : List TermProperty
deriving DecidableEq, Repr

/-- Source: interface Section (Section is a Lean keyword, hence Section'). -/
structure Section' where
  id : String
  title : String
  startOffset : Int
  endOffset : Int
  content : String
  kind : Option String
deriving DecidableEq, Repr

/-- One matched entry of the edge evidence. -/
structure MatchedEntry where
  property : String
  value : String
  spans : List Span
deriving DecidableEq, Repr

/-- One missing entry of the edge evidence. -/
structure MissingEntry where
  property : String
  value : String
  inSection : String
deriving DecidableEq, Repr

/-- Source: interface EdgeEvidence. -/
structure EdgeEvidence where
  matched : List MatchedEntry
  missing : List MissingEntry
deriving DecidableEq, Repr

/-- Source: interface GraphEdge (from is a Lean keyword, hence from'). -/
structure GraphEdge where
  from' : String
  to' : String
  prop : PropKind
  weight : ℚ
  evidence : EdgeEvidence
deriving DecidableEq, Repr

/-- Source: interface SectionGraph. -/
structure SectionGraph where
  nodes : List Section'
  edges : List GraphEdge
deriving DecidableEq, Repr

/-! ## JavaScript string primitives used by the source -/

/-- The JavaScript whitespace class (regex backslash-s, String.prototype.trim). -/
def jsIsSpace (c : Char) : Bool :=
  c = ' ' ∨ c = '\t' ∨ c = '\n' ∨ c = '\r' ∨ c = '\x0b' ∨ c = '\x0c' ∨
  c = ' ' ∨ c = ' ' ∨ (' ' ≤ c ∧ c ≤ ' ') ∨
  c = ' ' ∨ c = ' ' ∨ c = ' ' ∨ c = ' ' ∨
  c = '　' ∨ c = '﻿'

/-- JavaScript String.prototype.trim on a character list. -/
def jsTrimChars (cs : List Char) : List Char :=
  ((cs.dropWhile jsIsSpace).reverse.dropWhile jsIsSpace).reverse

/-- JavaScript String.prototype.trim. -/
def jsTrim (s : String) : String :=
  ⟨jsTrimChars s.data⟩

/-- JavaScript String.prototype.toLowerCase, restricted to ASCII (every
string the source lower-cases is compared against ASCII keywords). -/
def jsToLower (s : String) : String :=
  ⟨s.data.map Char.toLower⟩

/-- Test that the first list starts the second. -/
def startsWithChars : List Char → List Char → Bool
  | [], _ => true
  | _ :: _, [] => false
  | a :: as, b :: bs => a = b && startsWithChars as bs

/-- Test that the first list occurs contiguously inside the second. -/
def containsChars (sub : List Char) : List Char → Bool
  | [] => startsWithChars sub []
  | c :: cs => startsWithChars sub (c :: cs) || containsChars sub cs

/-- JavaScript String.prototype.includes. -/
def jsIncludes (s sub : String) : Bool :=
  containsChars sub.data s.data

/-- Replacement of every maximal whitespace run by a single blank
(source: replace(regex backslash-s+, ' ') with the global flag).
The boolean argument records whether the previous character was whitespace. -/
def collapseWsAux : Bool → List Char → List Char
  | _, [] => []
  | prev, c :: cs =>
    if jsIsSpace c then
      if prev then collapseWsAux true cs else ' ' :: collapseWsAux true cs
    else c :: collapseWsAux false cs

/-- Removal of the punctuation class [.,;:-] (source: normalizeName). -/
def stripPunct (cs : List Char) : List Char :=
  cs.filter (fun c => !(c = '.' ∨ c = ',' ∨ c = ';' ∨ c = ':' ∨ c = '-'))

/-! ## Comparator (BasicGraphBuilder private helpers) -/

/-- Source: BasicGraphBuilder.normalizeRole — trim, lower-case, then the
abbreviation table. -/
def normalizeRole (role : String) : String :=
  let normalized := jsToLower (jsTrim role)
  let roleMap : List (String × String) :=
    [("cto", "chief technology officer"),
     ("cfo", "chief financial officer"),
     ("ceo", "chief executive officer"),
     ("coo", "chief operating officer"),
     ("vp", "vice president"),
     ("svp", "senior vice president")]
  match roleMap.lookup normalized with
  | some v => v
  | none => normalized

/-- Source: BasicGraphBuilder.normalizeName — trim, lower-case, collapse
whitespace, strip punctuation. -/
def normalizeName (name : String) : String :=
  ⟨stripPunct (collapseWsAux false (jsToLower (jsTrim name)).data)⟩

/-- Canonical equality used by compareNameRoles. -/
def canonEqNR (a b : NameAndRole) : Bool :=
  normalizeRole a.role = normalizeRole b.role ∧
  normalizeName a.person = normalizeName b.person

/-- Canonical equality used by compareDates (exact ISO string equality). -/
def canonEqDate (a b : DateProperty) : Bool :=
  a.iso = b.iso

/-- Canonical equality used by compareTerms (name, value, unit triple with
missing unit read as the empty string). -/
def canonEqTerm (a b : TermProperty) : Bool :=
  a.name = b.name ∧ a.value = b.value ∧ a.unit.getD "" = b.unit.getD ""

/-- First element of a list satisfying p, together with the remaining
elements in order (models the scan over un-consumed indices of side B). -/
def extractFirst (p : α → Bool) : List α → Option (α × List α)
  | [] => none
  | x :: xs =>
    if p x then some (x, xs)
    else match extractFirst p xs with
      | some (y, ys) => some (y, x :: ys)
      | none => none

/-- The greedy first-fit matcher shared by compareNameRoles, compareDates and
compareTerms: iterate side A in order, consume the first canonical match on
side B; A-properties without a match are missing in B, un-consumed
B-properties are missing in A. -/
def greedyMatch (eq : α → α → Bool) : List α → List α → List (α × α) × List α × List α
  | [], bs => ([], [], bs)
  | a :: as, bs =>
    match extractFirst (eq a) bs with
    | some (b, bs') =>
      let r := greedyMatch eq as bs'
      ((a, b) :: r.1, r.2.1, r.2.2)
    | none =>
      let r := greedyMatch eq as bs
      (r.1, a :: r.2.1, r.2.2)

/-- Source: BasicGraphBuilder.compareNameRoles. -/
def compareNameRoles (rolesA rolesB : List NameAndRole) :
    List (NameAndRole × NameAndRole) × List NameAndRole × List NameAndRole :=
  greedyMatch canonEqNR rolesA rolesB

/-- Source: BasicGraphBuilder.compareDates. -/
def compareDates (datesA datesB : List DateProperty) :
    List (DateProperty × DateProperty) × List DateProperty × List DateProperty :=
  greedyMatch canonEqDate datesA datesB

/-- Source: BasicGraphBuilder.compareTerms. -/
def compareTerms (termsA termsB : List TermProperty) :
    List (TermProperty × TermProperty) × List TermProperty × List TermProperty :=
  greedyMatch canonEqTerm termsA termsB

/-! ## Policy bonus and edge construction (BasicGraphBuilder) -/

/-- Source: BasicGraphBuilder.calculatePolicyBonus. -/
def calculatePolicyBonus (sectionA sectionB : Section') (propType : PropKind) : ℚ :=
  match propType with
  | .nameRole =>
    let titleA := jsToLower sectionA.title
    let titleB := jsToLower sectionB.title
    let kindA := jsToLower (sectionA.kind.getD "")
    let kindB := jsToLower (sectionB.kind.getD "")
    let isOfficerSectionA :=
      jsIncludes titleA "officer" || jsIncludes titleA "designated" ||
      jsIncludes kindA "officer"
    let isOfficerSectionB :=
      jsIncludes titleB "officer" || jsIncludes titleB "designated" ||
      jsIncludes kindB "officer"
    if isOfficerSectionA && isOfficerSectionB then 0.9
    else if isOfficerSectionA || isOfficerSectionB then 0.6
    else 0.3
  | .date =>
    let titleA := jsToLower sectionA.title
    let titleB := jsToLower sectionB.title
    let isDateSectionA :=
      jsIncludes titleA "term" || jsIncludes titleA "signature" || jsIncludes titleA "effective"
    let isDateSectionB :=
      jsIncludes titleB "term" || jsIncludes titleB "signature" || jsIncludes titleB "effective"
    if isDateSectionA && isDateSectionB then 0.7
    else if isDateSectionA || isDateSectionB then 0.4
    else 0.2
  | .terms =>
    let titleA := jsToLower sectionA.title
    let titleB := jsToLower sectionB.title
    let isTermSectionA :=
      jsIncludes titleA "term" || jsIncludes titleA "fee" || jsIncludes titleA "payment"
    let isTermSectionB :=
      jsIncludes titleB "term" || jsIncludes titleB "fee" || jsIncludes titleB "payment"
    if isTermSectionA && isTermSectionB then 0.7
    else if isTermSectionA || isTermSectionB then 0.4
    else 0.2

/-- Rendered value of a NameAndRole, as in the edge evidence and in
getPropertyValue. -/
def renderNR (p : NameAndRole) : String :=
  p.role ++ ": " ++ p.person

/-- Rendered value of a TermProperty, as in the edge evidence and in
getPropertyValue. -/
def renderTerm (p : TermProperty) : String :=
  p.name ++ ": " ++ p.value ++ (match p.unit with | some u => " " ++ u | none => "")

/-- Source: BasicGraphBuilder.buildNameRoleEdge. -/
def buildNameRoleEdge (sectionA sectionB : Section')
    (inventoryA inventoryB : SectionInventory) : Option GraphEdge :=
  let rolesA := inventoryA.nameRole
  let rolesB := inventoryB.nameRole
  let r := compareNameRoles rolesA rolesB
  let matched := r.1
  let missingInB := r.2.1
  let missingInA := r.2.2
  let totalProperties := max rolesA.length rolesB.length
  if totalProperties = 0 then none
  else
    let baseSimilarity : ℚ := (matched.length : ℚ) / (totalProperties : ℚ)
    let policyBonus := calculatePolicyBonus sectionA sectionB .nameRole
    let weight := baseSimilarity * 0.7 + policyBonus * 0.3
    some
      { from' := sectionA.id
        to' := sectionB.id
        prop := .nameRole
        weight := weight
        evidence :=
          { matched := matched.map fun m =>
              { property := "Name&Role", value := renderNR m.1, spans := [m.1.span, m.2.span] }
            missing :=
              (missingInB.map fun m =>
                { property := "Name&Role", value := renderNR m, inSection := sectionB.id }) ++
              (missingInA.map fun m =>
                { property := "Name&Role", value := renderNR m, inSection := sectionA.id }) } }

/-- Source: BasicGraphBuilder.buildDateEdge. -/
def buildDateEdge (sectionA sectionB : Section')
    (inventoryA inventoryB : SectionInventory) : Option GraphEdge :=
  let datesA := inventoryA.date
  let datesB := inventoryB.date
  let r := compareDates datesA datesB
  let matched := r.1
  let missingInB := r.2.1
  let missingInA := r.2.2
  let totalProperties := max datesA.length datesB.length
  if totalProperties = 0 then none
  else
    let baseSimilarity : ℚ := (matched.length : ℚ) / (totalProperties : ℚ)
    let policyBonus := calculatePolicyBonus sectionA sectionB .date
    let weight := baseSimilarity * 0.8 + policyBonus * 0.2
    some
      { from' := sectionA.id
        to' := sectionB.id
        prop := .date
        weight := weight
        evidence :=
          { matched := matched.map fun m =>
              { property := "Date", value := m.1.iso, spans := [m.1.span, m.2.span] }
            missing :=
              (missingInB.map fun m =>
                { property := "Date", value := m.iso, inSection := sectionB.id }) ++
              (missingInA.map fun m =>
                { property := "Date", value := m.iso, inSection := sectionA.id }) } }

/-- Source: BasicGraphBuilder.buildTermsEdge. -/
def buildTermsEdge (sectionA sectionB : Section')
    (inventoryA inventoryB : SectionInventory) : Option GraphEdge :=
  let termsA := inventoryA.terms
  let termsB := inventoryB.terms
  let r := compareTerms termsA termsB
  let matched := r.1
  let missingInB := r.2.1
  let missingInA := r.2.2
  let totalProperties := max termsA.length termsB.length
  if totalProperties = 0 then none
  else
    let baseSimilarity : ℚ := (matched.length : ℚ) / (totalProperties : ℚ)
    let policyBonus := calculatePolicyBonus sectionA sectionB .terms
    let weight := baseSimilarity * 0.8 + policyBonus * 0.2
    some
      { from' := sectionA.id
        to' := sectionB.id
        prop := .terms
        weight := weight
        evidence :=
          { matched := matched.map fun m =>
              { property := "Terms", value := renderTerm m.1, spans := [m.1.span, m.2.span] }
            missing :=
              (missingInB.map fun m =>
                { property := "Terms", value := renderTerm m, inSection := sectionB.id }) ++
              (missingInA.map fun m =>
                { property := "Terms", value := renderTerm m, inSection := sectionA.id }) } }

/-- Edges contributed by one ordered section pair (the body of the nested
loop of buildGraph): the inventory lookups, the three nonzero-side guards
and the three builders, in source order. -/
def pairEdges (inventory : List (String × SectionInventory))
    (sectionA sectionB : Section') : List GraphEdge :=
  match inventory.lookup sectionA.id, inventory.lookup sectionB.id with
  | some inventoryA, some inventoryB =>
    (if inventoryA.nameRole.length > 0 ∨ inventoryB.nameRole.length > 0 then
      (buildNameRoleEdge sectionA sectionB inventoryA inventoryB).toList
    else []) ++
    (if inventoryA.date.length > 0 ∨ inventoryB.date.length > 0 then
      (buildDateEdge sectionA sectionB inventoryA inventoryB).toList
    else []) ++
    (if inventoryA.terms.length > 0 ∨ inventoryB.terms.length > 0 then
      (buildTermsEdge sectionA sectionB inventoryA inventoryB).toList
    else [])
  | _, _ => []

/-- All ordered pairs (i, j) with i < j, in the iteration order of the nested
loops of buildGraph. -/
def pairsOf : List α → List (α × α)
  | [] => []
  | x :: xs => (xs.map fun y => (x, y)) ++ pairsOf xs

/-- Source: BasicGraphBuilder.buildGraph.  The inventory map is modelled as
an association list in the insertion order of the Map; lookup takes the
first binding. -/
def buildGraph (sections : List Section')
    (inventory : List (String × SectionInventory)) : SectionGraph :=
  { nodes := sections
    edges := (pairsOf sections).flatMap fun p => pairEdges inventory p.1 p.2 }

/-! ## Suggestion engine data (BasicSuggestionEngine) -/

/-- A property object of any kind, as stored in delta missingValues. -/
inductive PropObj where
  | nr (p : NameAndRole)
  | dt (p : DateProperty)
  | tm (p : TermProperty)
deriving DecidableEq, Repr

/-- Extraction confidence of a property object. -/
def PropObj.conf : PropObj → ℚ
  | .nr p => p.conf
  | .dt p => p.conf
  | .tm p => p.conf

/-- Span of a property object. -/
def PropObj.span : PropObj → Span
  | .nr p => p.span
  | .dt p => p.span
  | .tm p => p.span

/-- Source: BasicSuggestionEngine.getPropertyValue.  The source dispatches on
the propType string; at every call site the object has the kind it is asked
for, so the dispatch is modelled on the object itself. -/
def getPropertyValue : PropObj → String
  | .nr p => renderNR p
  | .dt p => p.iso
  | .tm p => renderTerm p

/-- The property list of one kind, as kind-tagged objects. -/
def SectionInventory.props (inv : SectionInventory) : PropKind → List PropObj
  | .nameRole => inv.nameRole.map PropObj.nr
  | .date => inv.date.map PropObj.dt
  | .terms => inv.terms.map PropObj.tm

/-- Property count of a section id for a kind; a missing inventory binding
counts as zero. -/
def invCountAt (inv : List (String × SectionInventory)) (k : PropKind) (sid : String) : Nat :=
  match inv.lookup sid with
  | none => 0
  | some i => (i.props k).length

/-- Source: Delta record of computeDeltasFromClusters. -/
structure Delta where
  targetSection : String
  propType : PropKind
  missingValues : List PropObj
  sourceSection : String
  confidence : ℚ
deriving DecidableEq, Repr

/-! ## Cluster finder (findAuthorityClusters, buildClusterBFS) -/

/-- Neighbors of a node over edges of one kind (the connectedEdges filter and
neighbor choice of buildClusterBFS). -/
def neighborsOf (edges : List GraphEdge) (k : PropKind) (cur : String) : List String :=
  (edges.filter fun e => e.prop = k ∧ (e.from' = cur ∨ e.to' = cur)).map
    fun e => if e.from' = cur then e.to' else e.from'

/-- The BFS worklist loop of buildClusterBFS, with explicit fuel (the loop
terminates because every iteration either pops a visited node or marks a new
one; the wrapper supplies enough fuel for that measure). -/
def bfs (edges : List GraphEdge) (inv : List (String × SectionInventory)) (k : PropKind) :
    Nat → List String → List String → List String → List String × List String
  | 0, _, visited, cluster => (cluster, visited)
  | _ + 1, [], visited, cluster => (cluster, visited)
  | fuel + 1, cur :: queue, visited, cluster =>
    if cur ∈ visited then bfs edges inv k fuel queue visited cluster
    else
      let visited' := cur :: visited
      if 0 < invCountAt inv k cur then
        let enq := (neighborsOf edges k cur).filter fun n =>
          n ∉ visited' ∧ 0 < invCountAt inv k n
        bfs edges inv k fuel (queue ++ enq) visited' (cluster ++ [cur])
      else bfs edges inv k fuel queue visited' cluster

/-- Source: BasicSuggestionEngine.buildClusterBFS; returns the cluster and
the updated shared visited set. -/
def buildClusterBFS (edges : List GraphEdge) (inv : List (String × SectionInventory))
    (k : PropKind) (startSectionId : String) (visited : List String) :
    List String × List String :=
  bfs edges inv k (inv.length * (edges.length + 1) + 2) [startSectionId] visited []

/-- The per-kind seeding loop of findAuthorityClusters over the inventory
entries in map order, threading the shared visited set. -/
def clustersLoop (edges : List GraphEdge) (inv : List (String × SectionInventory))
    (k : PropKind) : List (String × SectionInventory) → List String →
    List (List String) × List String
  | [], visited => ([], visited)
  | (sid, sinv) :: rest, visited =>
    if sid ∈ visited ∨ (sinv.props k).length = 0 then
      clustersLoop edges inv k rest visited
    else
      let r := buildClusterBFS edges inv k sid visited
      let r2 := clustersLoop edges inv k rest r.2
      (if 0 < r.1.length then r.1 :: r2.1 else r2.1, r2.2)

/-- Source: BasicSuggestionEngine.findAuthorityClusters, for one kind. -/
def findAuthorityClusters (graph : SectionGraph) (inv : List (String × SectionInventory))
    (k : PropKind) : List (List String) :=
  (clustersLoop graph.edges inv k inv []).1

/-! ## Reference and authority selection -/

/-- The reference scan of computeDeltasFromClusters: the first member whose
raw property count strictly exceeds the running maximum (initially 0). -/
def selectRefLoop (inv : List (String × SectionInventory)) (k : PropKind) :
    List String → Option String → Nat → Option String × Nat
  | [], ref, mx => (ref, mx)
  | sid :: rest, ref, mx =>
    match inv.lookup sid with
    | none => selectRefLoop inv k rest ref mx
    | some i =>
      let propCount := (i.props k).length
      if mx < propCount then selectRefLoop inv k rest (some sid) propCount
      else selectRefLoop inv k rest ref mx

/-- Source: BasicSuggestionEngine.getSectionPolicyScore. -/
def getSectionPolicyScore (sec : Section') (propType : PropKind) : ℚ :=
  let title := jsToLower sec.title
  let kind := jsToLower (sec.kind.getD "")
  match propType with
  | .nameRole =>
    if jsIncludes title "designated" ||
       (jsIncludes title "designation" && jsIncludes title "officer") then 4
    else if (jsIncludes title "designated" && jsIncludes title "officer") ||
            jsIncludes kind "officer" then 5
    else if jsIncludes title "officer" || jsIncludes title "parties" then 4
    else if jsIncludes title "signature" then 3
    else 2
  | .date =>
    if jsIncludes title "effective" || jsIncludes title "term" || jsIncludes kind "term" then 4
    else 2
  | .terms =>
    if jsIncludes title "term" || jsIncludes title "fee" || jsIncludes title "payment" then 4
    else 2

/-- The best-section scan of selectPrimaryAuthoritiesFromClusters over the
flattened cluster members, score = count * 0.7 + policy * 0.3, running
maximum initially -1. -/
def selectPrimaryLoop (graph : SectionGraph) (inv : List (String × SectionInventory))
    (k : PropKind) : List String → Option String → ℚ → Option String × ℚ
  | [], best, bestScore => (best, bestScore)
  | sid :: rest, best, bestScore =>
    match inv.lookup sid with
    | none => selectPrimaryLoop graph inv k rest best bestScore
    | some i =>
      match graph.nodes.find? (fun n => n.id = sid) with
      | none => selectPrimaryLoop graph inv k rest best bestScore
      | some sec =>
        let score := ((i.props k).length : ℚ) * 0.7 + getSectionPolicyScore sec k * 0.3
        if bestScore < score then selectPrimaryLoop graph inv k rest (some sid) score
        else selectPrimaryLoop graph inv k rest best bestScore

/-- Source: BasicSuggestionEngine.selectPrimaryAuthoritiesFromClusters for
one kind.  The guarded record assignment if (bestSection) drops a JavaScript
falsy winner, i.e. the empty-string id. -/
def selectPrimaryAuthoritiesFromClusters (clusters : PropKind → List (List String))
    (graph : SectionGraph) (inv : List (String × SectionInventory)) (k : PropKind) :
    Option String :=
  match (selectPrimaryLoop graph inv k (clusters k).flatten none (-1)).1 with
  | some b => if b = "" then none else some b
  | none => none

/-! ## Delta engine (computeDeltasFromClusters) -/

/-- Cluster-pass deltas of one cluster: pick the reference, then diff every
other member against it by rendered property value; the edge weight (JS
falsy-defaulted by the or-operator, so a weight of 0 also yields 0.75)
becomes the confidence.  The guard if (not refSection) continue is a
JavaScript falsy test, so a reference whose id is the empty string also
skips the whole cluster. -/
def clusterDeltas (graph : SectionGraph) (inv : List (String × SectionInventory))
    (k : PropKind) (cluster : List String) : List Delta :=
  match (selectRefLoop inv k cluster none 0).1 with
  | none => []
  | some refSection =>
    if refSection = "" then []
    else
      match inv.lookup refSection with
      | none => []
      | some refInv =>
        let refProps := refInv.props k
        cluster.flatMap fun sid =>
          if sid = refSection then []
          else
            match inv.lookup sid with
            | none => []
            | some i =>
              let currentProps := i.props k
              let missingProps := refProps.filter fun refProp =>
                !(currentProps.any fun p => getPropertyValue p = getPropertyValue refProp)
              let edge := graph.edges.find? fun e =>
                e.prop = k ∧ ((e.from' = refSection ∧ e.to' = sid) ∨
                              (e.from' = sid ∧ e.to' = refSection))
              let confidence : ℚ :=
                match edge with
                | some e => if e.weight = 0 then 0.75 else e.weight
                | none => 0.75
              if 0 < missingProps.length then
                [{ targetSection := sid, propType := k, missingValues := missingProps,
                   sourceSection := refSection, confidence := confidence }]
              else []

/-- The fallback dedup key, the source string from-to-prop (id hyphens are
not escaped). -/
def fallbackKey (e : GraphEdge) : String :=
  e.from' ++ "-" ++ e.to' ++ "-" ++ propName e.prop

/-- The fallback pass of computeDeltasFromClusters over all edges. -/
def fallbackLoop (inv : List (String × SectionInventory)) :
    List GraphEdge → List String → List Delta
  | [], _ => []
  | e :: rest, processed =>
    if fallbackKey e ∈ processed then fallbackLoop inv rest processed
    else
      let processed' := fallbackKey e :: processed
      match inv.lookup e.from', inv.lookup e.to' with
      | some fromInv, some toInv =>
        if 0 < (fromInv.props e.prop).length ∧ (toInv.props e.prop).length = 0 then
          { targetSection := e.to', propType := e.prop,
            missingValues := fromInv.props e.prop, sourceSection := e.from',
            confidence := e.weight } :: fallbackLoop inv rest processed'
        else if 0 < (toInv.props e.prop).length ∧ (fromInv.props e.prop).length = 0 then
          { targetSection := e.from', propType := e.prop,
            missingValues := toInv.props e.prop, sourceSection := e.to',
            confidence := e.weight } :: fallbackLoop inv rest processed'
        else fallbackLoop inv rest processed'
      | _, _ => fallbackLoop inv rest processed'

/-- The iteration order of Object.entries over the cluster record. -/
def kindsInOrder : List PropKind := [.nameRole, .date, .terms]

/-- Source: BasicSuggestionEngine.computeDeltasFromClusters — the cluster
pass over all kinds and clusters, then the fallback pass over all edges. -/
def computeDeltasFromClusters (clusters : PropKind → List (List String))
    (graph : SectionGraph) (inv : List (String × SectionInventory)) : List Delta :=
  (kindsInOrder.flatMap fun k => (clusters k).flatMap (clusterDeltas graph inv k)) ++
  fallbackLoop inv graph.edges []

/-! ## Edit synthesizer (findAnchor, generateUpdateSuggestions) -/

/-- The regex digit class. -/
def jsIsDigit (c : Char) : Bool :=
  '0' ≤ c ∧ c ≤ '9'

/-- The regex word class. -/
def jsIsWordChar (c : Char) : Bool :=
  ('a' ≤ c ∧ c ≤ 'z') ∨ ('A' ≤ c ∧ c ≤ 'Z') ∨ jsIsDigit c ∨ c = '_'

/-- Maximal nonempty run of characters satisfying p at the head of the list,
with the remainder. -/
def takeRun (p : Char → Bool) (cs : List Char) : Option (List Char × List Char) :=
  match cs.takeWhile p with
  | [] => none
  | t => some (t, cs.drop t.length)

/-- The three characters of the (mojibake) bullet literal in the source
pattern. -/
def bulletChars : List Char := ['â', '€', '¢']

/-- Match of the first source list-item pattern (bullet literal, whitespace
run, word run) at the head of the list. -/
def matchBulletItem (cs : List Char) : Option (List Char × List Char) :=
  if startsWithChars bulletChars cs then
    let r1 := cs.drop bulletChars.length
    match takeRun jsIsSpace r1 with
    | none => none
    | some (ss, r2) =>
      match takeRun jsIsWordChar r2 with
      | none => none
      | some (ws, r3) => some (bulletChars ++ ss ++ ws, r3)
  else none

/-- Match of the second source list-item pattern (digit run, dot, whitespace
run, word run) at the head of the list. -/
def matchNumItem (cs : List Char) : Option (List Char × List Char) :=
  match takeRun jsIsDigit cs with
  | none => none
  | some (ds, r1) =>
    match r1 with
    | '.' :: r2 =>
      match takeRun jsIsSpace r2 with
      | none => none
      | some (ss, r3) =>
        match takeRun jsIsWordChar r3 with
        | none => none
        | some (ws, r4) => some (ds ++ '.' :: ss ++ ws, r4)
    | _ => none

/-- Match of the third source list-item pattern (hyphen, whitespace run,
word run) at the head of the list. -/
def matchHyphenItem (cs : List Char) : Option (List Char × List Char) :=
  match cs with
  | '-' :: r1 =>
    match takeRun jsIsSpace r1 with
    | none => none
    | some (ss, r2) =>
      match takeRun jsIsWordChar r2 with
      | none => none
      | some (ws, r3) => some ('-' :: ss ++ ws, r3)
  | _ => none

/-- All matches of a pattern in left-to-right, non-overlapping order (the
JavaScript global-flag match), with fuel; every source pattern consumes at
least one character, so length-plus-one fuel never runs out. -/
def scanAllF (pm : List Char → Option (List Char × List Char)) :
    Nat → List Char → List (List Char)
  | 0, _ => []
  | _ + 1, [] => []
  | fuel + 1, c :: cs =>
    match pm (c :: cs) with
    | some (m, rest) => m :: scanAllF pm fuel rest
    | none => scanAllF pm fuel cs

/-- All matches of a pattern in a character list. -/
def scanAll (pm : List Char → Option (List Char × List Char)) (cs : List Char) :
    List (List Char) :=
  scanAllF pm (cs.length + 1) cs

/-- Anchor result of findAnchor. -/
structure Anchor where
  text : String
  strategy : String
deriving DecidableEq, Repr

/-- The last match of the first role pattern that matches at all, in source
pattern order (bullet, numbered, hyphen). -/
def lastListItem (cs : List Char) : Option (List Char) :=
  match (scanAll matchBulletItem cs).getLast? with
  | some m => some m
  | none =>
    match (scanAll matchNumItem cs).getLast? with
    | some m => some m
    | none => (scanAll matchHyphenItem cs).getLast?

/-- Strategies 2 and 3 of findAnchor: the first line if its trimmed form is
nonempty, else the prefix before the first sentence terminator, defaulting
to the first fifty characters. -/
def headingOrDefault (content : String) : Anchor :=
  let firstLine := content.data.takeWhile (fun c => !(c = '\n'))
  let t := jsTrimChars firstLine
  if 0 < t.length then { text := ⟨t⟩, strategy := "after_heading" }
  else
    let firstSentence := content.data.takeWhile (fun c => !(c = '.' ∨ c = '!' ∨ c = '?'))
    if firstSentence.isEmpty then
      { text := ⟨content.data.take 50⟩, strategy := "beginning_of_section" }
    else { text := ⟨firstSentence⟩, strategy := "beginning_of_section" }

/-- Source: BasicSuggestionEngine.findAnchor. -/
def findAnchor (sec : Section') (propType : PropKind) : Anchor :=
  let content := sec.content
  if propType = .nameRole then
    match lastListItem content.data with
    | some m => { text := ⟨m⟩, strategy := "after_last_list_item" }
    | none => headingOrDefault content
  else headingOrDefault content

/-- Evidence pointer of a suggested update. -/
structure EvidenceFrom where
  section' : String
  spans : List Span
deriving DecidableEq, Repr

/-- Source: interface SuggestedUpdate (section is a Lean keyword, hence
section'). -/
structure SuggestedUpdate where
  section' : String
  type : String
  prop : PropKind
  anchor : String
  anchorStrategy : String
  values : List PropObj
  confidence : ℚ
  evidenceFrom : EvidenceFrom
  rationale : String
deriving DecidableEq, Repr

/-- Source: BasicSuggestionEngine.generateRationale. -/
def generateRationale (delta : Delta) (sourceSection : Section') : String :=
  let count := delta.missingValues.length
  "Missing " ++ toString count ++ " " ++ propName delta.propType ++ " propert" ++
  (if count = 1 then "y" else "ies") ++ " found in authoritative section \"" ++
  sourceSection.title ++ "\""

/-- Source: BasicSuggestionEngine.generateUpdateSuggestions.  A zero
extraction confidence is JavaScript-falsy, so the or-operator replaces it
with the 0.8 default before averaging. -/
def generateUpdateSuggestions (deltas : List Delta) (graph : SectionGraph) :
    List SuggestedUpdate :=
  deltas.flatMap fun delta =>
    match graph.nodes.find? (fun n => n.id = delta.targetSection),
          graph.nodes.find? (fun n => n.id = delta.sourceSection) with
    | some targetSection, some sourceSection =>
      let anchor := findAnchor targetSection delta.propType
      let missingProps := delta.missingValues
      if missingProps.length = 0 then []
      else
        let avgPropConfidence : ℚ :=
          (missingProps.map fun p => if p.conf = 0 then 0.8 else p.conf).sum /
            (missingProps.length : ℚ)
        let confidence := delta.confidence * 0.6 + avgPropConfidence * 0.4
        [{ section' := delta.targetSection, type := "insert", prop := delta.propType,
           anchor := anchor.text, anchorStrategy := anchor.strategy,
           values := missingProps, confidence := confidence,
           evidenceFrom := { section' := delta.sourceSection,
                             spans := missingProps.map PropObj.span },
           rationale := generateRationale delta sourceSection }]
    | _, _ => []

/-! ## Unchanged reporter and final report -/

/-- One unchanged entry of the report. -/
structure UnchangedEntry where
  prop : String
  sections : List String
  value : Option String
deriving DecidableEq, Repr

/-- Inner loop of identifyUnchangedProperties over the matched entries of
one edge, threading the seen-key set. -/
def unchangedInner (edge : GraphEdge) :
    List MatchedEntry → List String → List UnchangedEntry × List String
  | [], seen => ([], seen)
  | m :: ms, seen =>
    let key := propName edge.prop ++ ":" ++ m.value
    if key ∈ seen then unchangedInner edge ms seen
    else
      let r := unchangedInner edge ms (key :: seen)
      ({ prop := propName edge.prop, sections := [edge.from', edge.to'],
         value := some m.value } :: r.1, r.2)

/-- Outer loop of identifyUnchangedProperties over the high-confidence
edges. -/
def unchangedOuter : List GraphEdge → List String → List UnchangedEntry
  | [], _ => []
  | e :: es, seen =>
    let r := unchangedInner e e.evidence.matched seen
    r.1 ++ unchangedOuter es r.2

/-- Source: BasicSuggestionEngine.identifyUnchangedProperties. -/
def identifyUnchangedProperties (graph : SectionGraph) : List UnchangedEntry :=
  let highConfidenceEdges := graph.edges.filter fun e =>
    (0.85 : ℚ) < e.weight ∧ 0 < e.evidence.matched.length ∧
    e.evidence.missing.length = 0
  unchangedOuter highConfidenceEdges []

/-- Source: BasicSuggestionEngine.generateAuthRationale. -/
def generateAuthRationale (sectionId : Option String) (graph : SectionGraph)
    (inv : List (String × SectionInventory)) : String :=
  match sectionId with
  | none => "Selected as authoritative section"
  | some sid =>
    match graph.nodes.find? (fun n => n.id = sid) with
    | none => "Selected as authoritative section"
    | some sec =>
      match inv.lookup sid with
      | none => "Section \"" ++ sec.title ++ "\" selected as authoritative"
      | some i =>
        let counts := String.intercalate ", " (List.filterMap id
          [if 0 < i.nameRole.length then
            some (toString i.nameRole.length ++ " Name&Role") else none,
           if 0 < i.date.length then
            some (toString i.date.length ++ " Dates") else none,
           if 0 < i.terms.length then
            some (toString i.terms.length ++ " Terms") else none])
        let title := jsToLower sec.title
        let typeReason :=
          if jsIncludes title "designated" && jsIncludes title "officer" then
            " (designated officer section)"
          else if jsIncludes title "officer" then " (officer section)"
          else ""
        "Section \"" ++ sec.title ++ "\" has highest property count (" ++ counts ++
        ")" ++ typeReason

/-- Authoritative header of the report. -/
structure AuthInfo where
  section' : String
  evidenceSpan : Span
  rationale : String
deriving DecidableEq, Repr

/-- Source: interface SuggestionsReport. -/
structure SuggestionsReport where
  authoritative : AuthInfo
  suggestedUpdates : List SuggestedUpdate
  unchanged : List UnchangedEntry
deriving DecidableEq, Repr

/-- Source: BasicSuggestionEngine.generateSuggestions.  The or-chains over
the per-kind authorities and over the first node id follow JavaScript
truthiness: a missing record entry and the empty string both fall
through. -/
def generateSuggestions (graph : SectionGraph)
    (inv : List (String × SectionInventory)) : SuggestionsReport :=
  let clusters := findAuthorityClusters graph inv
  let authoritativeSections := selectPrimaryAuthoritiesFromClusters clusters graph inv
  let deltas := computeDeltasFromClusters clusters graph inv
  let suggestedUpdates := generateUpdateSuggestions deltas graph
  let unchanged := identifyUnchangedProperties graph
  let primaryAuthoritative : Option String :=
    match authoritativeSections .nameRole with
    | some s => some s
    | none =>
      match authoritativeSections .date with
      | some s => some s
      | none => authoritativeSections .terms
  let authSection : Option Section' :=
    match primaryAuthoritative with
    | some p => graph.nodes.find? (fun n => n.id = p)
    | none => none
  { authoritative :=
      { section' :=
          match primaryAuthoritative with
          | some p => p
          | none =>
            match graph.nodes.head? with
            | some n => if n.id = "" then "unknown" else n.id
            | none => "unknown"
        evidenceSpan :=
          match authSection with
          | some s => { start := s.startOffset, stop := s.endOffset }
          | none => { start := 0, stop := 0 }
        rationale := generateAuthRationale primaryAuthoritative graph inv }
    suggestedUpdates := suggestedUpdates
    unchanged := unchanged }

/-! ## Specification-side definitions used by the theorems -/

/-- Similarity weight per kind (0.7 for NameRole, 0.8 for Date/Terms). -/
def wSim : PropKind → ℚ
  | .nameRole => 0.7
  | .date => 0.8
  | .terms => 0.8

/-- Policy weight per kind (0.3 for NameRole, 0.2 for Date/Terms). -/
def wPolicy : PropKind → ℚ
  | .nameRole => 0.3
  | .date => 0.2
  | .terms => 0.2

/-- Matched count of the greedy comparison of two inventories for one kind. -/
def matchedCount (iA iB : SectionInventory) : PropKind → Nat
  | .nameRole => (compareNameRoles iA.nameRole iB.nameRole).1.length
  | .date => (compareDates iA.date iB.date).1.length
  | .terms => (compareTerms iA.terms iB.terms).1.length

/-- Base similarity of two inventories for one kind:
matched count over the larger property count. -/
def baseSimilarityOf (iA iB : SectionInventory) (k : PropKind) : ℚ :=
  (matchedCount iA iB k : ℚ) / (max (iA.props k).length (iB.props k).length : ℚ)

/-- A per-section NameRole policy score whose two-section average reproduces
the NameRole policy bonus (0.9 for an officer-flavoured section, 0.3
otherwise). -/
def nrScore (sec : Section') : ℚ :=
  let title := jsToLower sec.title
  let kind := jsToLower (sec.kind.getD "")
  if jsIncludes title "officer" || jsIncludes title "designated" ||
     jsIncludes kind "officer" then 0.9
  else 0.3

/-- Same-kind adjacency between nonzero-count sections: both endpoints hold
at least one property of the kind and some edge of that kind joins them. -/
def adjE (edges : List GraphEdge) (inv : List (String × SectionInventory))
    (k : PropKind) (x y : String) : Prop :=
  0 < invCountAt inv k x ∧ 0 < invCountAt inv k y ∧
  ∃ e ∈ edges, e.prop = k ∧ ((e.from' = x ∧ e.to' = y) ∨ (e.from' = y ∧ e.to' = x))

/-- Reachability over same-kind adjacency between nonzero-count sections. -/
def sameKindReach (edges : List GraphEdge) (inv : List (String × SectionInventory))
    (k : PropKind) : String → String → Prop :=
  Relation.ReflTransGen (adjE edges inv k)

/-- Prefix of the content before the first newline (JavaScript
split-on-newline, first element). -/
def firstLineOf (content : String) : String :=
  ⟨content.data.takeWhile (fun c => !(c = '\n'))⟩

/-- Prefix of the content before the first sentence terminator (JavaScript
split on the class [.!?], first element). -/
def sentencePrefixOf (content : String) : String :=
  ⟨content.data.takeWhile (fun c => !(c = '.' ∨ c = '!' ∨ c = '?'))⟩

/-- Extraction confidence with the JavaScript falsy default applied
(a zero confidence becomes 0.8). -/
def defaultedConf (p : PropObj) : ℚ :=
  if p.conf = 0 then 0.8 else p.conf

/-- The rendered-value missing set of the delta engine: reference properties
whose rendered value does not occur among the member's rendered values. -/
def renderMissing (refProps currentProps : List PropObj) : List PropObj :=
  refProps.filter fun refProp =>
    !(currentProps.any fun p => getPropertyValue p = getPropertyValue refProp)

/-! ## Concrete inputs used by counterexamples and witnesses -/

/-- Zero span for example properties. -/
def sp0 : Span := ⟨0, 0⟩

/-- Section with a given id and title and empty content. -/
def mkSec (i t : String) : Section' := ⟨i, t, 0, 10, "", none⟩

/-- Inventory holding only NameRole properties. -/
def invNR (l : List NameAndRole) : SectionInventory := ⟨l, [], []⟩

/-- Inventory holding only Date properties. -/
def invD (l : List DateProperty) : SectionInventory := ⟨[], l, []⟩

/-- Example date property. -/
def d1 : DateProperty := ⟨"2024-01-01", "January 1, 2024", sp0, 0.9⟩

/-- Example sections for the policy-average counterexample: two date-keyword
titles and two neutral titles. -/
def secT1 : Section' := mkSec "t1" "term"

/-- Second date-keyword section. -/
def secT2 : Section' := mkSec "t2" "term"

/-- First neutral-title section. -/
def secU1 : Section' := mkSec "u1" "misc"

/-- Second neutral-title section. -/
def secU2 : Section' := mkSec "u2" "misc"

/-- Inventory for the policy-average counterexample: all four sections hold
the same single date. -/
def invTU : List (String × SectionInventory) :=
  [("t1", invD [d1]), ("t2", invD [d1]), ("u1", invD [d1]), ("u2", invD [d1])]

/-- Graph of the policy-average counterexample. -/
def graphTU : SectionGraph := buildGraph [secT1, secT2, secU1, secU2] invTU

/-- Default edge used only to name the head of a computed edge list. -/
def defaultEdge : GraphEdge :=
  { from' := "", to' := "", prop := .date, weight := 0, evidence := ⟨[], []⟩ }

/-- The first emitted edge of the policy-average example (the t1-t2 date
edge). -/
def edgeT1T2 : GraphEdge := graphTU.edges.headD defaultEdge

/-- Example NameRole property with an abbreviated role. -/
def ctoShort : NameAndRole := ⟨"CTO", "John Doe", sp0, 0.95⟩

/-- Example NameRole property with the expanded role, canonically equal to
ctoShort. -/
def ctoLong : NameAndRole := ⟨"Chief Technology Officer", "John Doe", sp0, 0.95⟩

/-- Reference section of the canonical-match counterexample. -/
def secR : Section' := mkSec "r" "Officers"

/-- Member section of the canonical-match counterexample. -/
def secM : Section' := mkSec "m" "Signatures"

/-- Inventory of the canonical-match counterexample: the two sections hold
canonically equal but differently rendered properties. -/
def invRM : List (String × SectionInventory) :=
  [("r", invNR [ctoShort]), ("m", invNR [ctoLong])]

/-- Graph of the canonical-match counterexample. -/
def graphRM : SectionGraph := buildGraph [secR, secM] invRM

/-- Inventory for the missing-entry counterexample: only section r has a
binding. -/
def invROnly : List (String × SectionInventory) := [("r", invNR [ctoShort])]

/-- Sections of the fallback key-collision counterexample; the hyphenated
ids make two distinct (from, to, kind) triples share a dedup key. -/
def invColl : List (String × SectionInventory) :=
  [("a-b", invD [d1]), ("c", invD []), ("a", invD []), ("b-c", invD [d1])]

/-- Graph of the fallback key-collision counterexample. -/
def graphColl : SectionGraph :=
  buildGraph [mkSec "a-b" "x", mkSec "c" "x", mkSec "a" "x", mkSec "b-c" "x"] invColl

/-- Scenario-B style edge: weight 0.6, NameRole, between sections 3 and x. -/
def edgeScenB : GraphEdge :=
  { from' := "3", to' := "x", prop := .nameRole, weight := 0.6,
    evidence := ⟨[], []⟩ }

/-- Scenario-B style graph: an explicit weight-0.6 NameRole edge between a
three-property section and a zero-property section. -/
def graphScenB : SectionGraph :=
  { nodes := [mkSec "3" "Designated Officers", mkSec "x" "Overview"]
    edges := [edgeScenB] }

/-- Example CFO property. -/
def cfoProp : NameAndRole := ⟨"CFO", "Mark Miller", sp0, 0.95⟩

/-- Example associate property. -/
def assocProp : NameAndRole := ⟨"Associate", "Brian Brown", sp0, 0.9⟩

/-- Scenario-B inventory: section 3 holds three NameRole properties,
section x holds none. -/
def invScenB : List (String × SectionInventory) :=
  [("3", invNR [ctoShort, cfoProp, assocProp]), ("x", invNR [])]

/-- Section whose content has a numbered list item followed by a later
hyphen list item. -/
def secList : Section' := ⟨"s", "t", 0, 0, "1. John\n- Mark", none⟩

/-- Section whose content starts with a blank line but is nonempty. -/
def secBlankFirst : Section' := ⟨"s", "t", 0, 0, "\nHello.", none⟩

/-- Example NameRole property with zero extraction confidence. -/
def zeroConfProp : NameAndRole := ⟨"CTO", "Jo", sp0, 0⟩

/-- Delta with a zero-confidence missing property and delta confidence 1. -/
def deltaZeroConf : Delta := ⟨"m", .nameRole, [.nr zeroConfProp], "r", 1⟩

/-- Section with the empty string as id, holding one NameRole property. -/
def secEmptyId : Section' := ⟨"", "Officers", 0, 5, "", none⟩

/-- Inventory binding the empty-string id to one NameRole property. -/
def invEmptyId : List (String × SectionInventory) := [("", invNR [ctoShort])]

/-- Graph over the single empty-id section. -/
def graphEmptyId : SectionGraph := buildGraph [secEmptyId] invEmptyId

/-- Inventory with a binding whose key is no section id. -/
def invGhost : List (String × SectionInventory) :=
  [("a", invD [d1]), ("ghost", invD [d1])]

/-- Graph over the single real section of the ghost-key counterexample. -/
def graphGhost : SectionGraph := buildGraph [mkSec "a" "x"] invGhost

/-- One-section input showing that a singleton cluster is produced. -/
def invSingle : List (String × SectionInventory) := [("solo", invNR [ctoShort])]

/-- Graph of the singleton-cluster example. -/
def graphSingle : SectionGraph := buildGraph [mkSec "solo" "Officers"] invSingle

/-- Inventory for the empty-reference-id example: the empty-id section holds
two NameRole properties, section x holds one. -/
def invEmptyRef : List (String × SectionInventory) :=
  [("", invNR [ctoShort, cfoProp]), ("x", invNR [assocProp])]

/-- Graph of the empty-reference-id example: the empty-id section wins the
reference scan of the only NameRole cluster. -/
def graphEmptyRef : SectionGraph :=
  buildGraph [secEmptyId, mkSec "x" "t"] invEmptyRef

/-- Default update used only to name the head of a computed update list. -/
def defaultUpdate : SuggestedUpdate :=
  { section' := "", type := "", prop := .date, anchor := "", anchorStrategy := "",
    values := [], confidence := 0, evidenceFrom := ⟨"", []⟩, rationale := "" }

/-! ## Theorems -/

/-- Property list lengths coincide with the raw per-kind list lengths. -/
theorem props_length (i : SectionInventory) (k : PropKind) :
    (i.props k).length = match k with
      | .nameRole => i.nameRole.length
      | .date => i.date.length
      | .terms => i.terms.length := by
  cases k <;> simp [SectionInventory.props]

/-- Every edge of a built graph comes from one ordered section pair with
inventory bindings, and its weight is the weighted combination of base
similarity and policy bonus for its kind. -/
theorem buildGraph_edge_decomposition (sections : List Section')
    (inv : List (String × SectionInventory)) (e : GraphEdge)
    (he : e ∈ (buildGraph sections inv).edges) :
    ∃ A B iA iB, (A, B) ∈ pairsOf sections ∧
      inv.lookup A.id = some iA ∧ inv.lookup B.id = some iB ∧
      e.from' = A.id ∧ e.to' = B.id ∧
      e.weight = baseSimilarityOf iA iB e.prop * wSim e.prop +
                 calculatePolicyBonus A B e.prop * wPolicy e.prop := by
  simp only [buildGraph, List.mem_flatMap] at he
  obtain ⟨⟨A, B⟩, hAB, he⟩ := he
  refine ⟨A, B, ?_⟩
  simp only [pairEdges] at he
  cases hA : inv.lookup A.id with
  | none => rw [hA] at he; simp at he
  | some iA =>
    cases hB : inv.lookup B.id with
    | none => rw [hA, hB] at he; simp at he
    | some iB =>
      rw [hA, hB] at he
      refine ⟨iA, iB, hAB, rfl, rfl, ?_⟩
      simp only [List.mem_append] at he
      have hcase : e ∈ (buildNameRoleEdge A B iA iB).toList ∨
          e ∈ (buildDateEdge A B iA iB).toList ∨
          e ∈ (buildTermsEdge A B iA iB).toList := by
        rcases he with (h | h) | h
        · split at h
          · exact Or.inl h
          · simp at h
        · split at h
          · exact Or.inr (Or.inl h)
          · simp at h
        · split at h
          · exact Or.inr (Or.inr h)
          · simp at h
      rcases hcase with h | h | h
      · rw [Option.mem_toList, Option.mem_def] at h
        simp only [buildNameRoleEdge] at h
        split at h
        · simp at h
        · obtain rfl := (Option.some.injEq _ _).mp h
          refine ⟨rfl, rfl, ?_⟩
          simp [baseSimilarityOf, matchedCount, wSim, wPolicy, props_length]
      · rw [Option.mem_toList, Option.mem_def] at h
        simp only [buildDateEdge] at h
        split at h
        · simp at h
        · obtain rfl := (Option.some.injEq _ _).mp h
          refine ⟨rfl, rfl, ?_⟩
          simp [baseSimilarityOf, matchedCount, wSim, wPolicy, props_length]
      · rw [Option.mem_toList, Option.mem_def] at h
        simp only [buildTermsEdge] at h
        split at h
        · simp at h
        · obtain rfl := (Option.some.injEq _ _).mp h
          refine ⟨rfl, rfl, ?_⟩
          simp [baseSimilarityOf, matchedCount, wSim, wPolicy, props_length]

/-- The default-headed element of a nonempty list is a member. -/
theorem headD_mem_of_pos (l : List α) (d : α) (h : 0 < l.length) :
    l.headD d ∈ l := by
  cases l with
  | nil => simp at h
  | cons x xs => simp

/-- The default-headed element of a dropped suffix is a member. -/
theorem drop_headD_mem (l : List α) (i : Nat) (d : α) (h : i < l.length) :
    (l.drop i).headD d ∈ l := by
  have hlen : 0 < (l.drop i).length := by
    simpa [List.length_drop] using Nat.sub_pos_of_lt h
  exact List.mem_of_mem_drop (headD_mem_of_pos _ d hlen)

/-- C2 counterexample: with four sections holding identical single-date
inventories (base similarity 1 on every pair), the claim instantiated at
this input asserts per-section policy scores in the unit interval whose
pairwise averages reproduce every emitted Date edge weight through the
stated formula; no such scores exist, because the mixed-title pairs carry
bonus 0.4 instead of the average 0.45 of the same-title bonuses 0.7 and
0.2. -/
theorem C2_counterexample :
    (graphTU.edges.map fun e => (e.from', e.to', e.prop)) =
      [("t1", "t2", .date), ("t1", "u1", .date), ("t1", "u2", .date),
       ("t2", "u1", .date), ("t2", "u2", .date), ("u1", "u2", .date)] ∧
    ¬ ∃ s : String → ℚ, (∀ x, 0 ≤ s x ∧ s x ≤ 1) ∧
      ∀ e ∈ graphTU.edges,
        e.weight = baseSimilarityOf (invD [d1]) (invD [d1]) .date * wSim .date +
                   ((s e.from' + s e.to') / 2) * wPolicy .date := by
  refine ⟨by decide, ?_⟩
  rintro ⟨s, -, h⟩
  have m0 := h _ (drop_headD_mem graphTU.edges 0 defaultEdge (by decide))
  have m1 := h _ (drop_headD_mem graphTU.edges 1 defaultEdge (by decide))
  have m2 := h _ (drop_headD_mem graphTU.edges 2 defaultEdge (by decide))
  have m3 := h _ (drop_headD_mem graphTU.edges 3 defaultEdge (by decide))
  have m5 := h _ (drop_headD_mem graphTU.edges 5 defaultEdge (by decide))
  have h0 : ((1 : Nat) : ℚ) / ((1 : Nat) : ℚ) * 0.8 + 0.7 * 0.2 =
      ((1 : Nat) : ℚ) / ((1 : Nat) : ℚ) * 0.8 + ((s "t1" + s "t2") / 2) * 0.2 := m0
  have h1 : ((1 : Nat) : ℚ) / ((1 : Nat) : ℚ) * 0.8 + 0.4 * 0.2 =
      ((1 : Nat) : ℚ) / ((1 : Nat) : ℚ) * 0.8 + ((s "t1" + s "u1") / 2) * 0.2 := m1
  have h2 : ((1 : Nat) : ℚ) / ((1 : Nat) : ℚ) * 0.8 + 0.4 * 0.2 =
      ((1 : Nat) : ℚ) / ((1 : Nat) : ℚ) * 0.8 + ((s "t1" + s "u2") / 2) * 0.2 := m2
  have h3 : ((1 : Nat) : ℚ) / ((1 : Nat) : ℚ) * 0.8 + 0.4 * 0.2 =
      ((1 : Nat) : ℚ) / ((1 : Nat) : ℚ) * 0.8 + ((s "t2" + s "u1") / 2) * 0.2 := m3
  have h5 : ((1 : Nat) : ℚ) / ((1 : Nat) : ℚ) * 0.8 + 0.2 * 0.2 =
      ((1 : Nat) : ℚ) / ((1 : Nat) : ℚ) * 0.8 + ((s "u1" + s "u2") / 2) * 0.2 := m5
  norm_num at h0 h1 h2 h3 h5
  linarith

/-- C2 amended: every emitted edge weight is
baseSimilarity times wSim plus policyBonus times wPolicy with
(wSim, wPolicy) equal to (0.7, 0.3) for NameRole and (0.8, 0.2) for Date
and Terms, where the policy bonus is the joint keyword rule of the source;
that bonus always lies in the unit interval, and for NameRole (only) it
equals the average of per-section scores of 0.9 for officer-flavoured
sections and 0.3 otherwise. -/
theorem C2_amended :
    (∀ sections inv e, e ∈ (buildGraph sections inv).edges →
      ∃ A B iA iB, (A, B) ∈ pairsOf sections ∧
        inv.lookup A.id = some iA ∧ inv.lookup B.id = some iB ∧
        e.from' = A.id ∧ e.to' = B.id ∧
        e.weight = baseSimilarityOf iA iB e.prop * wSim e.prop +
                   calculatePolicyBonus A B e.prop * wPolicy e.prop) ∧
    (∀ A B k, 0 ≤ calculatePolicyBonus A B k ∧ calculatePolicyBonus A B k ≤ 1) ∧
    (∀ A B, calculatePolicyBonus A B .nameRole = (nrScore A + nrScore B) / 2) := by
  refine ⟨buildGraph_edge_decomposition, ?_, ?_⟩
  · intro A B k
    unfold calculatePolicyBonus
    cases k <;> dsimp only <;> split <;> norm_num <;> split <;> norm_num
  · intro A B
    unfold calculatePolicyBonus nrScore
    dsimp only
    cases hA : (jsIncludes (jsToLower A.title) "officer" ||
        jsIncludes (jsToLower A.title) "designated" ||
        jsIncludes (jsToLower (A.kind.getD "")) "officer") <;>
      cases hB : (jsIncludes (jsToLower B.title) "officer" ||
          jsIncludes (jsToLower B.title) "designated" ||
          jsIncludes (jsToLower (B.kind.getD "")) "officer") <;>
      simp [hA, hB] <;> norm_num

/-- C2 witness: the amended statement applied to the first edge of the
concrete policy-average example graph. -/
theorem C2_amended_witness :
    edgeT1T2 ∈ (buildGraph [secT1, secT2, secU1, secU2] invTU).edges ∧
    (∃ A B iA iB, (A, B) ∈ pairsOf [secT1, secT2, secU1, secU2] ∧
      invTU.lookup A.id = some iA ∧ invTU.lookup B.id = some iB ∧
      edgeT1T2.from' = A.id ∧ edgeT1T2.to' = B.id ∧
      edgeT1T2.weight = baseSimilarityOf iA iB edgeT1T2.prop * wSim edgeT1T2.prop +
        calculatePolicyBonus A B edgeT1T2.prop * wPolicy edgeT1T2.prop) :=
  ⟨headD_mem_of_pos _ _ (by decide),
   C2_amended.1 [secT1, secT2, secU1, secU2] invTU edgeT1T2
     (headD_mem_of_pos _ _ (by decide))⟩

/-- A successful first-fit extraction returns a satisfying element and a
permutation-complement of the input. -/
theorem extractFirst_eq_some (p : α → Bool) (l : List α) (x : α) (rest : List α)
    (h : extractFirst p l = some (x, rest)) :
    p x = true ∧ l.Perm (x :: rest) := by
  induction l generalizing rest with
  | nil => simp [extractFirst] at h
  | cons a as ih =>
    simp only [extractFirst] at h
    split at h
    · rw [Option.some.injEq, Prod.mk.injEq] at h
      obtain ⟨rfl, rfl⟩ := h
      exact ⟨by assumption, List.Perm.refl _⟩
    · cases hh : extractFirst p as with
      | none => rw [hh] at h; simp at h
      | some pr =>
        obtain ⟨y, ys⟩ := pr
        rw [hh] at h
        rw [Option.some.injEq, Prod.mk.injEq] at h
        obtain ⟨rfl, rfl⟩ := h
        obtain ⟨hp, hperm⟩ := ih _ hh
        refine ⟨hp, ?_⟩
        exact (hperm.cons a).trans (List.Perm.swap _ a ys)

/-- The greedy first-fit matcher partitions both sides: matched plus
missing-in-B covers side A, matched plus missing-in-A covers side B (as
multisets), and every matched pair satisfies the equality test. -/
theorem greedyMatch_spec (eq : α → α → Bool) (as bs : List α) :
    ((greedyMatch eq as bs).1.map Prod.fst ++ (greedyMatch eq as bs).2.1).Perm as ∧
    ((greedyMatch eq as bs).1.map Prod.snd ++ (greedyMatch eq as bs).2.2).Perm bs ∧
    ∀ pr ∈ (greedyMatch eq as bs).1, eq pr.1 pr.2 = true := by
  induction as generalizing bs with
  | nil => simp [greedyMatch]
  | cons a as ih =>
    simp only [greedyMatch]
    cases hx : extractFirst (eq a) bs with
    | none =>
      obtain ⟨ih1, ih2, ih3⟩ := ih bs
      refine ⟨?_, ih2, ih3⟩
      exact List.perm_middle.trans (ih1.cons a)
    | some pr =>
      obtain ⟨b, bs'⟩ := pr
      obtain ⟨hpb, hperm⟩ := extractFirst_eq_some _ _ _ _ hx
      obtain ⟨ih1, ih2, ih3⟩ := ih bs'
      refine ⟨(ih1.cons a), ?_, ?_⟩
      · exact (ih2.cons b).trans hperm.symm
      · intro pr hpr
        rcases List.mem_cons.mp hpr with h | h
        · subst h; exact hpb
        · exact ih3 _ h

/-- Characterization of a built NameRole edge: endpoints, kind, weight
formula and evidence in terms of the comparator output. -/
theorem buildNameRoleEdge_some (A B : Section') (iA iB : SectionInventory)
    (e : GraphEdge) (h : buildNameRoleEdge A B iA iB = some e) :
    e.from' = A.id ∧ e.to' = B.id ∧ e.prop = .nameRole ∧
    e.evidence.matched = (compareNameRoles iA.nameRole iB.nameRole).1.map (fun m =>
      { property := "Name&Role", value := renderNR m.1, spans := [m.1.span, m.2.span] }) ∧
    e.evidence.missing =
      ((compareNameRoles iA.nameRole iB.nameRole).2.1.map fun m =>
        { property := "Name&Role", value := renderNR m, inSection := B.id }) ++
      ((compareNameRoles iA.nameRole iB.nameRole).2.2.map fun m =>
        { property := "Name&Role", value := renderNR m, inSection := A.id }) := by
  simp only [buildNameRoleEdge] at h
  split at h
  · simp at h
  · obtain rfl := (Option.some.injEq _ _).mp h
    exact ⟨rfl, rfl, rfl, rfl, rfl⟩

/-- Characterization of a built Date edge. -/
theorem buildDateEdge_some (A B : Section') (iA iB : SectionInventory)
    (e : GraphEdge) (h : buildDateEdge A B iA iB = some e) :
    e.from' = A.id ∧ e.to' = B.id ∧ e.prop = .date ∧
    e.evidence.matched = (compareDates iA.date iB.date).1.map (fun m =>
      { property := "Date", value := m.1.iso, spans := [m.1.span, m.2.span] }) ∧
    e.evidence.missing =
      ((compareDates iA.date iB.date).2.1.map fun m =>
        { property := "Date", value := m.iso, inSection := B.id }) ++
      ((compareDates iA.date iB.date).2.2.map fun m =>
        { property := "Date", value := m.iso, inSection := A.id }) := by
  simp only [buildDateEdge] at h
  split at h
  · simp at h
  · obtain rfl := (Option.some.injEq _ _).mp h
    exact ⟨rfl, rfl, rfl, rfl, rfl⟩

/-- Characterization of a built Terms edge. -/
theorem buildTermsEdge_some (A B : Section') (iA iB : SectionInventory)
    (e : GraphEdge) (h : buildTermsEdge A B iA iB = some e) :
    e.from' = A.id ∧ e.to' = B.id ∧ e.prop = .terms ∧
    e.evidence.matched = (compareTerms iA.terms iB.terms).1.map (fun m =>
      { property := "Terms", value := renderTerm m.1, spans := [m.1.span, m.2.span] }) ∧
    e.evidence.missing =
      ((compareTerms iA.terms iB.terms).2.1.map fun m =>
        { property := "Terms", value := renderTerm m, inSection := B.id }) ++
      ((compareTerms iA.terms iB.terms).2.2.map fun m =>
        { property := "Terms", value := renderTerm m, inSection := A.id }) := by
  simp only [buildTermsEdge] at h
  split at h
  · simp at h
  · obtain rfl := (Option.some.injEq _ _).mp h
    exact ⟨rfl, rfl, rfl, rfl, rfl⟩

/-- Every edge of a built graph comes from one of the three builders applied
to an ordered pair of sections with inventory bindings. -/
theorem buildGraph_edge_src (sections : List Section')
    (inv : List (String × SectionInventory)) (e : GraphEdge)
    (he : e ∈ (buildGraph sections inv).edges) :
    ∃ A B iA iB, (A, B) ∈ pairsOf sections ∧
      inv.lookup A.id = some iA ∧ inv.lookup B.id = some iB ∧
      ((buildNameRoleEdge A B iA iB = some e ∧
        (iA.nameRole.length > 0 ∨ iB.nameRole.length > 0)) ∨
       (buildDateEdge A B iA iB = some e ∧
        (iA.date.length > 0 ∨ iB.date.length > 0)) ∨
       (buildTermsEdge A B iA iB = some e ∧
        (iA.terms.length > 0 ∨ iB.terms.length > 0))) := by
  simp only [buildGraph, List.mem_flatMap] at he
  obtain ⟨⟨A, B⟩, hAB, he⟩ := he
  refine ⟨A, B, ?_⟩
  simp only [pairEdges] at he
  cases hA : inv.lookup A.id with
  | none => rw [hA] at he; simp at he
  | some iA =>
    cases hB : inv.lookup B.id with
    | none => rw [hA, hB] at he; simp at he
    | some iB =>
      rw [hA, hB] at he
      refine ⟨iA, iB, hAB, rfl, rfl, ?_⟩
      simp only [List.mem_append] at he
      rcases he with (h | h) | h
      · split at h
        · rw [Option.mem_toList, Option.mem_def] at h
          exact Or.inl ⟨h, by assumption⟩
        · simp at h
      · split at h
        · rw [Option.mem_toList, Option.mem_def] at h
          exact Or.inr (Or.inl ⟨h, by assumption⟩)
        · simp at h
      · split at h
        · rw [Option.mem_toList, Option.mem_def] at h
          exact Or.inr (Or.inr ⟨h, by assumption⟩)
        · simp at h

/-- Members of the ordered-pair list are members of the underlying list. -/
theorem mem_of_mem_pairsOf {l : List α} {a b : α} (h : (a, b) ∈ pairsOf l) :
    a ∈ l ∧ b ∈ l := by
  induction l with
  | nil => simp [pairsOf] at h
  | cons x xs ih =>
    simp only [pairsOf, List.mem_append, List.mem_map] at h
    rcases h with ⟨y, hy, hxy⟩ | h
    · rw [Prod.mk.injEq] at hxy
      obtain ⟨rfl, rfl⟩ := hxy
      exact ⟨List.mem_cons_self _ _, List.mem_cons_of_mem _ hy⟩
    · obtain ⟨ha, hb⟩ := ih h
      exact ⟨List.mem_cons_of_mem _ ha, List.mem_cons_of_mem _ hb⟩

/-- C3 counterexample: one section holds a NameRole property but its
partner has no inventory binding at all; the claim (reading a missing
inventory as empty, per the spec's section 7) requires an edge for the
pair, yet the built graph has none. -/
theorem C3_counterexample :
    (buildGraph [secR, secM] invROnly).edges = [] ∧
    invROnly.lookup secR.id = some (invNR [ctoShort]) ∧
    0 < (invNR [ctoShort]).nameRole.length ∧
    invROnly.lookup secM.id = none :=
  ⟨rfl, rfl, by decide, rfl⟩

/-- An ordered section pair with inventory bindings and at least one
property of a kind on either side yields an edge of that kind in the built
graph. -/
theorem edge_exists_of_counts (sections : List Section')
    (inv : List (String × SectionInventory)) (A B : Section')
    (iA iB : SectionInventory) (k : PropKind)
    (hAB : (A, B) ∈ pairsOf sections)
    (hA : inv.lookup A.id = some iA) (hB : inv.lookup B.id = some iB)
    (hk : 0 < (iA.props k).length + (iB.props k).length) :
    ∃ e ∈ (buildGraph sections inv).edges,
      e.from' = A.id ∧ e.to' = B.id ∧ e.prop = k := by
  cases k with
  | nameRole =>
    simp only [SectionInventory.props, List.length_map] at hk
    have hguard : iA.nameRole.length > 0 ∨ iB.nameRole.length > 0 := by omega
    cases hsome : buildNameRoleEdge A B iA iB with
    | none =>
      exfalso
      simp only [buildNameRoleEdge] at hsome
      split at hsome
      · omega
      · exact Option.noConfusion hsome
    | some e =>
      obtain ⟨hf, ht, hp, -, -⟩ := buildNameRoleEdge_some _ _ _ _ _ hsome
      refine ⟨e, ?_, hf, ht, hp⟩
      simp only [buildGraph, List.mem_flatMap]
      refine ⟨(A, B), hAB, ?_⟩
      simp only [pairEdges, hA, hB, List.mem_append]
      exact Or.inl (Or.inl (by rw [if_pos hguard, hsome]; simp))
  | date =>
    simp only [SectionInventory.props, List.length_map] at hk
    have hguard : iA.date.length > 0 ∨ iB.date.length > 0 := by omega
    cases hsome : buildDateEdge A B iA iB with
    | none =>
      exfalso
      simp only [buildDateEdge] at hsome
      split at hsome
      · omega
      · exact Option.noConfusion hsome
    | some e =>
      obtain ⟨hf, ht, hp, -, -⟩ := buildDateEdge_some _ _ _ _ _ hsome
      refine ⟨e, ?_, hf, ht, hp⟩
      simp only [buildGraph, List.mem_flatMap]
      refine ⟨(A, B), hAB, ?_⟩
      simp only [pairEdges, hA, hB, List.mem_append]
      exact Or.inl (Or.inr (by rw [if_pos hguard, hsome]; simp))
  | terms =>
    simp only [SectionInventory.props, List.length_map] at hk
    have hguard : iA.terms.length > 0 ∨ iB.terms.length > 0 := by omega
    cases hsome : buildTermsEdge A B iA iB with
    | none =>
      exfalso
      simp only [buildTermsEdge] at hsome
      split at hsome
      · omega
      · exact Option.noConfusion hsome
    | some e =>
      obtain ⟨hf, ht, hp, -, -⟩ := buildTermsEdge_some _ _ _ _ _ hsome
      refine ⟨e, ?_, hf, ht, hp⟩
      simp only [buildGraph, List.mem_flatMap]
      refine ⟨(A, B), hAB, ?_⟩
      simp only [pairEdges, hA, hB, List.mem_append]
      exact Or.inr (by rw [if_pos hguard, hsome]; simp)

/-- C3 amended: for section pairs in which both sections hold an inventory
binding, an edge of a kind exists if and only if at least one side holds a
property of that kind (zero-match edges included); pairs with a missing
binding contribute no edges at all; and on every emitted edge the matched
pairs and the per-side missing lists partition each side's property
multiset, with every matched pair canonically equal. -/
theorem C3_amended :
    (∀ sections inv A B iA iB k, (sections.map Section'.id).Nodup →
      (A, B) ∈ pairsOf sections →
      inv.lookup A.id = some iA → inv.lookup B.id = some iB →
      ((∃ e ∈ (buildGraph sections inv).edges,
          e.from' = A.id ∧ e.to' = B.id ∧ e.prop = k) ↔
        0 < (iA.props k).length + (iB.props k).length)) ∧
    (∀ inv A B, inv.lookup A.id = none ∨ inv.lookup B.id = none →
      pairEdges inv A B = []) ∧
    (∀ sections inv e, e ∈ (buildGraph sections inv).edges →
      ∃ A B iA iB, (A, B) ∈ pairsOf sections ∧
        inv.lookup A.id = some iA ∧ inv.lookup B.id = some iB ∧
        e.from' = A.id ∧ e.to' = B.id ∧
        ((e.prop = .nameRole ∧ ∃ ms missB missA,
            compareNameRoles iA.nameRole iB.nameRole = (ms, missB, missA) ∧
            e.evidence.matched = ms.map (fun m =>
              { property := "Name&Role", value := renderNR m.1,
                spans := [m.1.span, m.2.span] }) ∧
            e.evidence.missing = (missB.map fun m =>
              { property := "Name&Role", value := renderNR m, inSection := B.id }) ++
              (missA.map fun m =>
              { property := "Name&Role", value := renderNR m, inSection := A.id }) ∧
            (ms.map Prod.fst ++ missB).Perm iA.nameRole ∧
            (ms.map Prod.snd ++ missA).Perm iB.nameRole ∧
            ∀ pr ∈ ms, canonEqNR pr.1 pr.2 = true) ∨
         (e.prop = .date ∧ ∃ ms missB missA,
            compareDates iA.date iB.date = (ms, missB, missA) ∧
            e.evidence.matched = ms.map (fun m =>
              { property := "Date", value := m.1.iso,
                spans := [m.1.span, m.2.span] }) ∧
            e.evidence.missing = (missB.map fun m =>
              { property := "Date", value := m.iso, inSection := B.id }) ++
              (missA.map fun m =>
              { property := "Date", value := m.iso, inSection := A.id }) ∧
            (ms.map Prod.fst ++ missB).Perm iA.date ∧
            (ms.map Prod.snd ++ missA).Perm iB.date ∧
            ∀ pr ∈ ms, canonEqDate pr.1 pr.2 = true) ∨
         (e.prop = .terms ∧ ∃ ms missB missA,
            compareTerms iA.terms iB.terms = (ms, missB, missA) ∧
            e.evidence.matched = ms.map (fun m =>
              { property := "Terms", value := renderTerm m.1,
                spans := [m.1.span, m.2.span] }) ∧
            e.evidence.missing = (missB.map fun m =>
              { property := "Terms", value := renderTerm m, inSection := B.id }) ++
              (missA.map fun m =>
              { property := "Terms", value := renderTerm m, inSection := A.id }) ∧
            (ms.map Prod.fst ++ missB).Perm iA.terms ∧
            (ms.map Prod.snd ++ missA).Perm iB.terms ∧
            ∀ pr ∈ ms, canonEqTerm pr.1 pr.2 = true))) := by
  refine ⟨?_, ?_, ?_⟩
  · intro sections inv A B iA iB k hnd hAB hA hB
    constructor
    · rintro ⟨e, he, hf, ht, hk⟩
      obtain ⟨A', B', iA', iB', hAB', hA', hB', hsrc⟩ :=
        buildGraph_edge_src sections inv e he
      obtain ⟨hAmem, hBmem⟩ := mem_of_mem_pairsOf hAB
      obtain ⟨hA'mem, hB'mem⟩ := mem_of_mem_pairsOf hAB'
      have hinj := List.inj_on_of_nodup_map hnd
      rcases hsrc with ⟨hsome, hguard⟩ | ⟨hsome, hguard⟩ | ⟨hsome, hguard⟩
      · obtain ⟨hf', ht', hp', -, -⟩ := buildNameRoleEdge_some _ _ _ _ _ hsome
        obtain rfl : A' = A := hinj hA'mem hAmem (hf'.symm.trans hf)
        obtain rfl : B' = B := hinj hB'mem hBmem (ht'.symm.trans ht)
        obtain rfl : iA' = iA := Option.some.inj (hA'.symm.trans hA)
        obtain rfl : iB' = iB := Option.some.inj (hB'.symm.trans hB)
        obtain rfl : k = .nameRole := hk.symm.trans hp'
        simp only [SectionInventory.props, List.length_map]
        omega
      · obtain ⟨hf', ht', hp', -, -⟩ := buildDateEdge_some _ _ _ _ _ hsome
        obtain rfl : A' = A := hinj hA'mem hAmem (hf'.symm.trans hf)
        obtain rfl : B' = B := hinj hB'mem hBmem (ht'.symm.trans ht)
        obtain rfl : iA' = iA := Option.some.inj (hA'.symm.trans hA)
        obtain rfl : iB' = iB := Option.some.inj (hB'.symm.trans hB)
        obtain rfl : k = .date := hk.symm.trans hp'
        simp only [SectionInventory.props, List.length_map]
        omega
      · obtain ⟨hf', ht', hp', -, -⟩ := buildTermsEdge_some _ _ _ _ _ hsome
        obtain rfl : A' = A := hinj hA'mem hAmem (hf'.symm.trans hf)
        obtain rfl : B' = B := hinj hB'mem hBmem (ht'.symm.trans ht)
        obtain rfl : iA' = iA := Option.some.inj (hA'.symm.trans hA)
        obtain rfl : iB' = iB := Option.some.inj (hB'.symm.trans hB)
        obtain rfl : k = .terms := hk.symm.trans hp'
        simp only [SectionInventory.props, List.length_map]
        omega
    · exact edge_exists_of_counts sections inv A B iA iB k hAB hA hB
  · rintro inv A B (h | h)
    · simp [pairEdges, h]
    · cases hA : inv.lookup A.id <;> simp [pairEdges, h, hA]
  · intro sections inv e he
    obtain ⟨A, B, iA, iB, hAB, hA, hB, hsrc⟩ := buildGraph_edge_src sections inv e he
    refine ⟨A, B, iA, iB, hAB, hA, hB, ?_⟩
    rcases hsrc with ⟨hsome, -⟩ | ⟨hsome, -⟩ | ⟨hsome, -⟩
    · obtain ⟨hf, ht, hp, hm, hmiss⟩ := buildNameRoleEdge_some _ _ _ _ _ hsome
      obtain ⟨p1, p2, p3⟩ := greedyMatch_spec canonEqNR iA.nameRole iB.nameRole
      exact ⟨hf, ht, Or.inl ⟨hp, _, _, _, rfl, hm, hmiss, p1, p2, p3⟩⟩
    · obtain ⟨hf, ht, hp, hm, hmiss⟩ := buildDateEdge_some _ _ _ _ _ hsome
      obtain ⟨p1, p2, p3⟩ := greedyMatch_spec canonEqDate iA.date iB.date
      exact ⟨hf, ht, Or.inr (Or.inl ⟨hp, _, _, _, rfl, hm, hmiss, p1, p2, p3⟩)⟩
    · obtain ⟨hf, ht, hp, hm, hmiss⟩ := buildTermsEdge_some _ _ _ _ _ hsome
      obtain ⟨p1, p2, p3⟩ := greedyMatch_spec canonEqTerm iA.terms iB.terms
      exact ⟨hf, ht, Or.inr (Or.inr ⟨hp, _, _, _, rfl, hm, hmiss, p1, p2, p3⟩)⟩

/-- C3 witness: the amended edge-existence equivalence applied to the
concrete two-section input whose sections both carry one NameRole
property. -/
theorem C3_amended_witness :
    ([secR, secM].map Section'.id).Nodup ∧
    (secR, secM) ∈ pairsOf [secR, secM] ∧
    invRM.lookup secR.id = some (invNR [ctoShort]) ∧
    invRM.lookup secM.id = some (invNR [ctoLong]) ∧
    ((∃ e ∈ (buildGraph [secR, secM] invRM).edges,
        e.from' = secR.id ∧ e.to' = secM.id ∧ e.prop = .nameRole) ↔
      0 < ((invNR [ctoShort]).props .nameRole).length +
          ((invNR [ctoLong]).props .nameRole).length) :=
  ⟨by decide, by decide, rfl, rfl,
   C3_amended.1 [secR, secM] invRM secR secM _ _ .nameRole (by decide) (by decide)
     rfl rfl⟩

/-- A positive count means the id has a binding, hence is among the keys. -/
theorem mem_keys_of_invCountAt_pos {inv : List (String × SectionInventory)}
    {k : PropKind} {x : String} (h : 0 < invCountAt inv k x) :
    x ∈ inv.map Prod.fst := by
  unfold invCountAt at h
  cases hl : inv.lookup x with
  | none => rw [hl] at h; simp at h
  | some i =>
    clear h
    induction inv with
    | nil => simp [List.lookup] at hl
    | cons p rest ih =>
      simp only [List.lookup] at hl
      cases hx : (x == p.1) with
      | true =>
        simp only [List.map_cons, List.mem_cons]
        exact Or.inl (eq_of_beq hx)
      | false =>
        rw [hx] at hl
        exact List.mem_cons_of_mem _ (ih hl)

/-- With duplicate-free keys, every binding is returned by lookup. -/
theorem lookup_eq_some_of_nodup {inv : List (String × SectionInventory)}
    (hnd : (inv.map Prod.fst).Nodup) {sid : String} {si : SectionInventory}
    (hmem : (sid, si) ∈ inv) : inv.lookup sid = some si := by
  induction inv with
  | nil => simp at hmem
  | cons p rest ih =>
    simp only [List.map_cons, List.nodup_cons] at hnd
    rcases List.mem_cons.mp hmem with h | h
    · subst h
      simp [List.lookup]
    · have hne : sid ≠ p.1 := by
        intro heq
        exact hnd.1 (heq ▸ List.mem_map_of_mem Prod.fst h)
      simp only [List.lookup, beq_eq_false_iff_ne.mpr hne]
      exact ih hnd.2 h

/-- Marking an unvisited key strictly shrinks the unvisited-key count. -/
theorem filter_not_mem_cons_lt (l : List String) (visited : List String)
    (cur : String) (hmem : cur ∈ l) (hvis : cur ∉ visited) :
    ((l.filter fun x => x ∉ cur :: visited).length <
      (l.filter fun x => x ∉ visited).length) := by
  have hstep : (l.filter fun x => x ∉ cur :: visited) =
      (l.filter fun x => x ∉ visited).filter (fun x => x ≠ cur) := by
    rw [List.filter_filter]
    apply List.filter_congr
    intro x _
    by_cases hc : x = cur
    · subst hc
      simp [hvis]
    · by_cases hv : x ∈ visited <;> simp [hc, hv]
  have hcur : cur ∈ l.filter (fun x => x ∉ visited) :=
    List.mem_filter.mpr ⟨hmem, by simp [hvis]⟩
  rw [hstep]
  exact List.length_filter_lt_length_iff_exists.mpr ⟨cur, hcur, by simp⟩


/-- Membership in the neighbor list is existence of a same-kind edge. -/
theorem mem_neighborsOf {edges : List GraphEdge} {k : PropKind} {cur y : String} :
    y ∈ neighborsOf edges k cur ↔
    ∃ e ∈ edges, e.prop = k ∧
      ((e.from' = cur ∧ e.to' = y) ∨ (e.from' = y ∧ e.to' = cur)) := by
  constructor
  · intro hy
    simp only [neighborsOf, List.mem_map, List.mem_filter,
      decide_eq_true_eq] at hy
    obtain ⟨e, ⟨he, hprop, hor⟩, hne⟩ := hy
    refine ⟨e, he, hprop, ?_⟩
    by_cases hf : e.from' = cur
    · rw [if_pos hf] at hne
      exact Or.inl ⟨hf, hne⟩
    · rw [if_neg hf] at hne
      rcases hor with h | h
      · exact absurd h hf
      · exact Or.inr ⟨hne, h⟩
  · rintro ⟨e, he, hp, hor⟩
    simp only [neighborsOf, List.mem_map, List.mem_filter, decide_eq_true_eq]
    refine ⟨e, ⟨he, hp, ?_⟩, ?_⟩
    · rcases hor with ⟨h1, h2⟩ | ⟨h1, h2⟩
      · exact Or.inl h1
      · exact Or.inr h2
    · rcases hor with ⟨h1, h2⟩ | ⟨h1, h2⟩
      · rw [if_pos h1]; exact h2
      · by_cases hf : e.from' = cur
        · rw [if_pos hf]
          rw [hf] at h1
          rw [h2, h1]
        · rw [if_neg hf]; exact h1

/-- Same-kind adjacency is symmetric. -/
theorem adjE_symm {edges : List GraphEdge} {inv : List (String × SectionInventory)}
    {k : PropKind} {x y : String} (h : adjE edges inv k x y) : adjE edges inv k y x := by
  obtain ⟨hx, hy, e, he, hp, hor⟩ := h
  exact ⟨hy, hx, e, he, hp, hor.symm⟩

/-- Same-kind reachability is symmetric. -/
theorem sameKindReach_symm {edges : List GraphEdge}
    {inv : List (String × SectionInventory)} {k : PropKind} {x y : String}
    (h : sameKindReach edges inv k x y) : sameKindReach edges inv k y x :=
  Relation.ReflTransGen.symmetric (fun _ _ => adjE_symm) h

/-- Worklist invariant of the BFS loop: starting from a queue of good,
seed-reachable, not-previously-closed nodes, with the visited set equal to
the closed set V₀ plus the accumulated cluster, the loop returns a cluster
of good seed-reachable nodes that is adjacency-closed, contains every
unvisited queue element and the whole accumulator, is duplicate-free, and
extends the visited set by exactly the cluster. -/
theorem bfs_spec (edges : List GraphEdge) (inv : List (String × SectionInventory))
    (k : PropKind) (seed : String) (V₀ : List String)
    (hV₀closed : ∀ v ∈ V₀, ∀ y, adjE edges inv k v y → y ∈ V₀) :
    ∀ fuel queue visited acc,
    ((inv.map Prod.fst).filter (fun x => x ∉ visited)).length * (edges.length + 1) +
      queue.length ≤ fuel →
    (∀ q ∈ queue, 0 < invCountAt inv k q ∧ sameKindReach edges inv k seed q ∧ q ∉ V₀) →
    (∀ a ∈ acc, 0 < invCountAt inv k a ∧ sameKindReach edges inv k seed a ∧ a ∉ V₀) →
    (∀ a ∈ acc, ∀ y, adjE edges inv k a y → y ∈ visited ∨ y ∈ queue) →
    (∀ v ∈ visited, v ∈ V₀ ∨ v ∈ acc) →
    (∀ v ∈ V₀, v ∈ visited) →
    acc.Nodup →
    (∀ a ∈ acc, a ∈ visited) →
    ((∀ x ∈ (bfs edges inv k fuel queue visited acc).1,
        0 < invCountAt inv k x ∧ sameKindReach edges inv k seed x ∧ x ∉ V₀) ∧
     (∀ x ∈ (bfs edges inv k fuel queue visited acc).1, ∀ y,
        adjE edges inv k x y → y ∈ (bfs edges inv k fuel queue visited acc).1) ∧
     (∀ q ∈ queue, q ∉ visited → q ∈ (bfs edges inv k fuel queue visited acc).1) ∧
     (∀ a ∈ acc, a ∈ (bfs edges inv k fuel queue visited acc).1) ∧
     (∀ v, v ∈ (bfs edges inv k fuel queue visited acc).2 ↔
        (v ∈ V₀ ∨ v ∈ (bfs edges inv k fuel queue visited acc).1)) ∧
     (bfs edges inv k fuel queue visited acc).1.Nodup) := by
  intro fuel
  induction fuel with
  | zero =>
    intro queue visited acc hfuel hq hacc hfront hvis hV₀vis hnd haccvis
    have hqe : queue = [] := List.length_eq_zero.mp (by omega)
    subst hqe
    have hred : bfs edges inv k 0 [] visited acc = (acc, visited) := by
      simp [bfs]
    rw [hred]
    refine ⟨hacc, ?_, by simp, fun a ha => ha, ?_, hnd⟩
    · intro x hx y hadj
      rcases hfront x hx y hadj with h | h
      · rcases hvis y h with h0 | h0
        · exact absurd ((hV₀closed y h0 x (adjE_symm hadj))) (hacc x hx).2.2
        · exact h0
      · simp at h
    · intro v
      constructor
      · exact hvis v
      · rintro (h | h)
        · exact hV₀vis v h
        · exact haccvis v h
  | succ fuel ih =>
    intro queue visited acc hfuel hq hacc hfront hvis hV₀vis hnd haccvis
    cases queue with
    | nil =>
      have hred : bfs edges inv k (fuel + 1) [] visited acc = (acc, visited) := by
        simp [bfs]
      rw [hred]
      refine ⟨hacc, ?_, by simp, fun a ha => ha, ?_, hnd⟩
      · intro x hx y hadj
        rcases hfront x hx y hadj with h | h
        · rcases hvis y h with h0 | h0
          · exact absurd ((hV₀closed y h0 x (adjE_symm hadj))) (hacc x hx).2.2
          · exact h0
        · simp at h
      · intro v
        constructor
        · exact hvis v
        · rintro (h | h)
          · exact hV₀vis v h
          · exact haccvis v h
    | cons cur queue =>
      by_cases hv : cur ∈ visited
      · have hred : bfs edges inv k (fuel + 1) (cur :: queue) visited acc =
            bfs edges inv k fuel queue visited acc := by
          simp only [bfs, if_pos hv]
        rw [hred]
        have hfuel' : ((inv.map Prod.fst).filter (fun x => x ∉ visited)).length *
            (edges.length + 1) + queue.length ≤ fuel := by
          simp only [List.length_cons] at hfuel
          omega
        obtain ⟨g1, g2, g3, g4, g5, g6⟩ := ih queue visited acc hfuel'
          (fun q hq' => hq q (List.mem_cons_of_mem _ hq'))
          hacc
          (fun a ha y hadj => by
            rcases hfront a ha y hadj with h | h
            · exact Or.inl h
            · rcases List.mem_cons.mp h with h0 | h0
              · exact Or.inl (h0 ▸ hv)
              · exact Or.inr h0)
          hvis hV₀vis hnd haccvis
        refine ⟨g1, g2, ?_, g4, g5, g6⟩
        intro q hq' hqv
        rcases List.mem_cons.mp hq' with h | h
        · exact absurd (h ▸ hv) hqv
        · exact g3 q h hqv
      · have hgood : 0 < invCountAt inv k cur := (hq cur (List.mem_cons_self _ _)).1
        have hreach : sameKindReach edges inv k seed cur :=
          (hq cur (List.mem_cons_self _ _)).2.1
        have hnotV₀ : cur ∉ V₀ := (hq cur (List.mem_cons_self _ _)).2.2
        have hred : bfs edges inv k (fuel + 1) (cur :: queue) visited acc =
            bfs edges inv k fuel
              (queue ++ (neighborsOf edges k cur).filter
                (fun n => n ∉ cur :: visited ∧ 0 < invCountAt inv k n))
              (cur :: visited) (acc ++ [cur]) := by
          simp only [bfs, if_neg hv, if_pos hgood]
        rw [hred]
        -- fuel bound for the recursive state
        have hkey : cur ∈ inv.map Prod.fst := mem_keys_of_invCountAt_pos hgood
        have hlt := filter_not_mem_cons_lt (inv.map Prod.fst) visited cur hkey hv
        have henq : ((neighborsOf edges k cur).filter
            (fun n => n ∉ cur :: visited ∧ 0 < invCountAt inv k n)).length ≤
            edges.length := by
          calc ((neighborsOf edges k cur).filter _).length
              ≤ (neighborsOf edges k cur).length := List.length_filter_le _ _
            _ ≤ edges.length := by
                simp only [neighborsOf, List.length_map]
                exact List.length_filter_le _ _
        have hfuel' : ((inv.map Prod.fst).filter (fun x => x ∉ cur :: visited)).length *
            (edges.length + 1) +
            (queue ++ (neighborsOf edges k cur).filter
              (fun n => n ∉ cur :: visited ∧ 0 < invCountAt inv k n)).length ≤ fuel := by
          rw [List.length_append]
          have hmul : ((inv.map Prod.fst).filter (fun x => x ∉ cur :: visited)).length *
              (edges.length + 1) + (edges.length + 1) ≤
              ((inv.map Prod.fst).filter (fun x => x ∉ visited)).length *
              (edges.length + 1) := by
            have h1 : ((inv.map Prod.fst).filter (fun x => x ∉ cur :: visited)).length + 1 ≤
                ((inv.map Prod.fst).filter (fun x => x ∉ visited)).length :=
              Nat.succ_le_of_lt hlt
            calc ((inv.map Prod.fst).filter (fun x => x ∉ cur :: visited)).length *
                  (edges.length + 1) + (edges.length + 1)
                = (((inv.map Prod.fst).filter (fun x => x ∉ cur :: visited)).length + 1) *
                  (edges.length + 1) := by ring
              _ ≤ ((inv.map Prod.fst).filter (fun x => x ∉ visited)).length *
                  (edges.length + 1) := Nat.mul_le_mul_right _ h1
          simp only [List.length_cons] at hfuel
          omega
        -- queue invariant for the recursive state
        have hq' : ∀ q ∈ queue ++ (neighborsOf edges k cur).filter
            (fun n => n ∉ cur :: visited ∧ 0 < invCountAt inv k n),
            0 < invCountAt inv k q ∧ sameKindReach edges inv k seed q ∧ q ∉ V₀ := by
          intro q hq'
          rcases List.mem_append.mp hq' with h | h
          · exact hq q (List.mem_cons_of_mem _ h)
          · obtain ⟨hnb, hcond⟩ := List.mem_filter.mp h
            rw [decide_eq_true_eq] at hcond
            obtain ⟨hnvis, hcnt⟩ := hcond
            have hadj : adjE edges inv k cur q :=
              ⟨hgood, hcnt, mem_neighborsOf.mp hnb⟩
            refine ⟨hcnt, hreach.tail hadj, ?_⟩
            intro hq0
            exact hnotV₀ (hV₀closed q hq0 cur (adjE_symm hadj))
        -- accumulator invariant
        have hacc' : ∀ a ∈ acc ++ [cur],
            0 < invCountAt inv k a ∧ sameKindReach edges inv k seed a ∧ a ∉ V₀ := by
          intro a ha
          rcases List.mem_append.mp ha with h | h
          · exact hacc a h
          · rw [List.mem_singleton.mp h]
            exact ⟨hgood, hreach, hnotV₀⟩
        -- frontier invariant
        have hfront' : ∀ a ∈ acc ++ [cur], ∀ y, adjE edges inv k a y →
            y ∈ cur :: visited ∨ y ∈ queue ++ (neighborsOf edges k cur).filter
              (fun n => n ∉ cur :: visited ∧ 0 < invCountAt inv k n) := by
          intro a ha y hadj
          rcases List.mem_append.mp ha with h | h
          · rcases hfront a h y hadj with h0 | h0
            · exact Or.inl (List.mem_cons_of_mem _ h0)
            · rcases List.mem_cons.mp h0 with h1 | h1
              · exact Or.inl (h1 ▸ List.mem_cons_self _ _)
              · exact Or.inr (List.mem_append.mpr (Or.inl h1))
          · rw [List.mem_singleton.mp h] at hadj
            obtain ⟨-, hcnt, hedge⟩ := hadj
            have hnb : y ∈ neighborsOf edges k cur := mem_neighborsOf.mpr hedge
            by_cases hyv : y ∈ cur :: visited
            · exact Or.inl hyv
            · refine Or.inr (List.mem_append.mpr (Or.inr ?_))
              exact List.mem_filter.mpr ⟨hnb, by simp [hyv, hcnt]⟩
        -- visited decomposition invariant
        have hvis' : ∀ v ∈ cur :: visited, v ∈ V₀ ∨ v ∈ acc ++ [cur] := by
          intro v hv'
          rcases List.mem_cons.mp hv' with h | h
          · exact Or.inr (List.mem_append.mpr (Or.inr (by simp [h])))
          · rcases hvis v h with h0 | h0
            · exact Or.inl h0
            · exact Or.inr (List.mem_append.mpr (Or.inl h0))
        have hV₀vis' : ∀ v ∈ V₀, v ∈ cur :: visited :=
          fun v hv' => List.mem_cons_of_mem _ (hV₀vis v hv')
        have hnd' : (acc ++ [cur]).Nodup := by
          rw [List.nodup_append]
          refine ⟨hnd, List.nodup_singleton _, ?_⟩
          intro x hx hx'
          rw [List.mem_singleton.mp hx'] at hx
          exact hv (haccvis cur hx)
        have haccvis' : ∀ a ∈ acc ++ [cur], a ∈ cur :: visited := by
          intro a ha
          rcases List.mem_append.mp ha with h | h
          · exact List.mem_cons_of_mem _ (haccvis a h)
          · exact (List.mem_singleton.mp h) ▸ List.mem_cons_self _ _
        obtain ⟨g1, g2, g3, g4, g5, g6⟩ := ih _ _ _ hfuel' hq' hacc' hfront'
          hvis' hV₀vis' hnd' haccvis'
        refine ⟨g1, g2, ?_, ?_, g5, g6⟩
        · intro q hq0 hqv
          rcases List.mem_cons.mp hq0 with h | h
          · exact h ▸ g4 cur (List.mem_append.mpr (Or.inr (by simp)))
          · by_cases hqv' : q ∈ cur :: visited
            · rcases List.mem_cons.mp hqv' with h0 | h0
              · exact h0 ▸ g4 cur (List.mem_append.mpr (Or.inr (by simp)))
              · exact absurd h0 hqv
            · exact g3 q (List.mem_append.mpr (Or.inl h)) hqv'
        · intro a ha
          exact g4 a (List.mem_append.mpr (Or.inl ha))

/-- One BFS call from a good unvisited seed over a closed visited set
computes exactly the reachability class of the seed, marks it visited, and
produces a duplicate-free cluster of good, previously unvisited nodes. -/
theorem buildClusterBFS_component (edges : List GraphEdge)
    (inv : List (String × SectionInventory)) (k : PropKind) (seed : String)
    (visited : List String)
    (hclosed : ∀ v ∈ visited, ∀ y, adjE edges inv k v y → y ∈ visited)
    (hgood : 0 < invCountAt inv k seed) (hseed : seed ∉ visited) :
    (∀ y, y ∈ (buildClusterBFS edges inv k seed visited).1 ↔
        sameKindReach edges inv k seed y) ∧
    (∀ v, v ∈ (buildClusterBFS edges inv k seed visited).2 ↔
        (v ∈ visited ∨ v ∈ (buildClusterBFS edges inv k seed visited).1)) ∧
    (buildClusterBFS edges inv k seed visited).1.Nodup ∧
    (∀ x ∈ (buildClusterBFS edges inv k seed visited).1,
        0 < invCountAt inv k x ∧ x ∉ visited) := by
  have hfuel : ((inv.map Prod.fst).filter (fun x => x ∉ visited)).length *
      (edges.length + 1) + ([seed] : List String).length ≤
      inv.length * (edges.length + 1) + 2 := by
    have h1 : ((inv.map Prod.fst).filter (fun x => x ∉ visited)).length ≤ inv.length := by
      calc ((inv.map Prod.fst).filter (fun x => x ∉ visited)).length
          ≤ (inv.map Prod.fst).length := List.length_filter_le _ _
        _ = inv.length := List.length_map _ _
    have h2 : ((inv.map Prod.fst).filter (fun x => x ∉ visited)).length *
        (edges.length + 1) ≤ inv.length * (edges.length + 1) :=
      Nat.mul_le_mul_right _ h1
    simp only [List.length_singleton]
    omega
  obtain ⟨g1, g2, g3, g4, g5, g6⟩ := bfs_spec edges inv k seed visited hclosed
    (inv.length * (edges.length + 1) + 2) [seed] visited [] hfuel
    (by
      intro q hq
      rw [List.mem_singleton.mp hq]
      exact ⟨hgood, Relation.ReflTransGen.refl, hseed⟩)
    (by simp) (by simp) (fun v hv => Or.inl hv) (fun v hv => hv) List.nodup_nil
    (by simp)
  have hseedC : seed ∈ (buildClusterBFS edges inv k seed visited).1 :=
    g3 seed (List.mem_singleton.mpr rfl) hseed
  refine ⟨?_, g5, g6, fun x hx => ⟨(g1 x hx).1, (g1 x hx).2.2⟩⟩
  intro y
  constructor
  · intro hy
    exact (g1 y hy).2.1
  · intro hreach
    induction hreach with
    | refl => exact hseedC
    | tail hab hadj ihr => exact g2 _ ihr _ hadj

/-- Invariant of the seeding loop over inventory entries: the produced
clusters are reachability classes with duplicate-free, pairwise disjoint,
good and previously unvisited members, and the final visited set is the
initial one plus exactly the union of the clusters, kept adjacency
closed. -/
theorem clustersLoop_spec (edges : List GraphEdge)
    (inv : List (String × SectionInventory)) (k : PropKind) :
    ∀ entries visited,
    (∀ v ∈ visited, ∀ y, adjE edges inv k v y → y ∈ visited) →
    (∀ p ∈ entries, inv.lookup p.1 = some p.2) →
    ((∀ c ∈ (clustersLoop edges inv k entries visited).1,
        ∃ s ∈ c, ∀ y, y ∈ c ↔ sameKindReach edges inv k s y) ∧
     (∀ c ∈ (clustersLoop edges inv k entries visited).1, ∀ x ∈ c,
        0 < invCountAt inv k x ∧ x ∉ visited) ∧
     (∀ c ∈ (clustersLoop edges inv k entries visited).1, c.Nodup) ∧
     (clustersLoop edges inv k entries visited).1.Pairwise
        (fun c d => ∀ x ∈ c, x ∉ d) ∧
     (∀ v, v ∈ (clustersLoop edges inv k entries visited).2 ↔
        (v ∈ visited ∨ ∃ c ∈ (clustersLoop edges inv k entries visited).1, v ∈ c)) ∧
     (∀ v ∈ (clustersLoop edges inv k entries visited).2, ∀ y,
        adjE edges inv k v y → y ∈ (clustersLoop edges inv k entries visited).2) ∧
     (∀ p ∈ entries, 0 < (p.2.props k).length →
        p.1 ∈ (clustersLoop edges inv k entries visited).2)) := by
  intro entries
  induction entries with
  | nil =>
    intro visited hclosed _
    have hred : clustersLoop edges inv k [] visited = ([], visited) := by
      simp [clustersLoop]
    rw [hred]
    refine ⟨by simp, by simp, by simp, by simp, ?_, hclosed, by simp⟩
    intro v
    simp
  | cons p rest ih =>
    intro visited hclosed hin
    obtain ⟨sid, si⟩ := p
    have hlookup : inv.lookup sid = some si := hin _ (List.mem_cons_self _ _)
    by_cases hskip : sid ∈ visited ∨ (si.props k).length = 0
    · have hred : clustersLoop edges inv k ((sid, si) :: rest) visited =
          clustersLoop edges inv k rest visited := by
        simp only [clustersLoop, if_pos hskip]
      rw [hred]
      obtain ⟨i1, i2, i3, i4, i5, i6, i7⟩ := ih visited hclosed
        (fun q hq => hin q (List.mem_cons_of_mem _ hq))
      refine ⟨i1, i2, i3, i4, i5, i6, ?_⟩
      intro q hq hpos
      rcases List.mem_cons.mp hq with h | h
      · subst h
        rcases hskip with h0 | h0
        · exact (i5 sid).mpr (Or.inl h0)
        · have hpos' : 0 < (si.props k).length := hpos
          omega
      · exact i7 q h hpos
    · push_neg at hskip
      obtain ⟨hnvis, hne⟩ := hskip
      have hgood : 0 < invCountAt inv k sid := by
        unfold invCountAt
        rw [hlookup]
        exact Nat.pos_of_ne_zero hne
      obtain ⟨c1, c2, c3, c4⟩ :=
        buildClusterBFS_component edges inv k sid visited hclosed hgood hnvis
      have hseedC : sid ∈ (buildClusterBFS edges inv k sid visited).1 :=
        (c1 sid).mpr Relation.ReflTransGen.refl
      have hpos : 0 < (buildClusterBFS edges inv k sid visited).1.length :=
        List.length_pos.mpr (List.ne_nil_of_mem hseedC)
      have hV'closed : ∀ v ∈ (buildClusterBFS edges inv k sid visited).2, ∀ y,
          adjE edges inv k v y → y ∈ (buildClusterBFS edges inv k sid visited).2 := by
        intro v hv y hadj
        rcases (c2 v).mp hv with h | h
        · exact (c2 y).mpr (Or.inl (hclosed v h y hadj))
        · have : sameKindReach edges inv k sid y := ((c1 v).mp h).tail hadj
          exact (c2 y).mpr (Or.inr ((c1 y).mpr this))
      obtain ⟨i1, i2, i3, i4, i5, i6, i7⟩ :=
        ih (buildClusterBFS edges inv k sid visited).2 hV'closed
          (fun q hq => hin q (List.mem_cons_of_mem _ hq))
      have hred : clustersLoop edges inv k ((sid, si) :: rest) visited =
          ((buildClusterBFS edges inv k sid visited).1 ::
            (clustersLoop edges inv k rest
              (buildClusterBFS edges inv k sid visited).2).1,
           (clustersLoop edges inv k rest
              (buildClusterBFS edges inv k sid visited).2).2) := by
        simp only [clustersLoop, if_neg (by push_neg; exact ⟨hnvis, hne⟩ :
          ¬(sid ∈ visited ∨ (si.props k).length = 0))]
        rw [if_pos hpos]
      rw [hred]
      have hvisV' : ∀ v ∈ visited, v ∈ (buildClusterBFS edges inv k sid visited).2 :=
        fun v hv => (c2 v).mpr (Or.inl hv)
      have hCV' : ∀ x ∈ (buildClusterBFS edges inv k sid visited).1,
          x ∈ (buildClusterBFS edges inv k sid visited).2 :=
        fun x hx => (c2 x).mpr (Or.inr hx)
      have hV'V'' : ∀ v ∈ (buildClusterBFS edges inv k sid visited).2,
          v ∈ (clustersLoop edges inv k rest
            (buildClusterBFS edges inv k sid visited).2).2 :=
        fun v hv => (i5 v).mpr (Or.inl hv)
      refine ⟨?_, ?_, ?_, ?_, ?_, i6, ?_⟩
      · intro c hc
        rcases List.mem_cons.mp hc with h | h
        · exact h ▸ ⟨sid, hseedC, c1⟩
        · exact i1 c h
      · intro c hc x hx
        rcases List.mem_cons.mp hc with h | h
        · exact c4 x (h ▸ hx)
        · obtain ⟨hg, hnv'⟩ := i2 c h x hx
          exact ⟨hg, fun hxv => hnv' (hvisV' x hxv)⟩
      · intro c hc
        rcases List.mem_cons.mp hc with h | h
        · exact h ▸ c3
        · exact i3 c h
      · refine List.Pairwise.cons ?_ i4
        intro d hd x hx hxd
        exact (i2 d hd x hxd).2 (hCV' x hx)
      · intro v
        constructor
        · intro hv
          rcases (i5 v).mp hv with h | h
          · rcases (c2 v).mp h with h0 | h0
            · exact Or.inl h0
            · exact Or.inr ⟨_, List.mem_cons_self _ _, h0⟩
          · obtain ⟨c, hc, hvc⟩ := h
            exact Or.inr ⟨c, List.mem_cons_of_mem _ hc, hvc⟩
        · rintro (h | ⟨c, hc, hvc⟩)
          · exact hV'V'' v (hvisV' v h)
          · rcases List.mem_cons.mp hc with h0 | h0
            · exact hV'V'' v (hCV' v (h0 ▸ hvc))
            · exact (i5 v).mpr (Or.inr ⟨c, h0, hvc⟩)
      · intro q hq hqpos
        rcases List.mem_cons.mp hq with h | h
        · have : q.1 = sid := by rw [h]
          exact this ▸ hV'V'' sid (hCV' sid hseedC)
        · exact i7 q h hqpos

/-- Cluster-finder characterization shared by several theorems: members are
good, each cluster is the reachability class of any member, clusters are
pairwise disjoint and duplicate-free. -/
theorem findAuthorityClusters_spec (graph : SectionGraph)
    (inv : List (String × SectionInventory)) (k : PropKind)
    (hnd : (inv.map Prod.fst).Nodup) :
    (∀ c ∈ findAuthorityClusters graph inv k, ∀ x ∈ c, 0 < invCountAt inv k x) ∧
    (∀ c ∈ findAuthorityClusters graph inv k, ∀ x ∈ c, ∀ y,
       (y ∈ c ↔ sameKindReach graph.edges inv k x y)) ∧
    (findAuthorityClusters graph inv k).Pairwise (fun c d => ∀ x ∈ c, x ∉ d) ∧
    (∀ c ∈ findAuthorityClusters graph inv k, c.Nodup) := by
  obtain ⟨o1, o2, o3, o4, -, -, -⟩ := clustersLoop_spec graph.edges inv k inv []
    (by simp) (fun p hp => lookup_eq_some_of_nodup hnd hp)
  refine ⟨fun c hc x hx => (o2 c hc x hx).1, ?_, o4, o3⟩
  intro c hc x hx y
  obtain ⟨s, hs, hchar⟩ := o1 c hc
  have hsx : sameKindReach graph.edges inv k s x := (hchar x).mp hx
  constructor
  · intro hy
    exact Relation.ReflTransGen.trans (sameKindReach_symm hsx) ((hchar y).mp hy)
  · intro hy
    exact (hchar y).mpr (Relation.ReflTransGen.trans hsx hy)

/-- C4: with duplicate-free inventory keys, the clusters of each kind are
made of sections holding at least one property of that kind, each cluster
is exactly the same-kind reachability class of any of its members (connected
and maximal), clusters are pairwise disjoint and duplicate-free; and a
singleton cluster is valid output, as the one-section example shows. -/
theorem C4_clusters :
    (∀ (graph : SectionGraph) (inv : List (String × SectionInventory)) (k : PropKind),
      (inv.map Prod.fst).Nodup →
      ((∀ c ∈ findAuthorityClusters graph inv k, ∀ x ∈ c, 0 < invCountAt inv k x) ∧
       (∀ c ∈ findAuthorityClusters graph inv k, ∀ x ∈ c, ∀ y,
          (y ∈ c ↔ sameKindReach graph.edges inv k x y)) ∧
       (findAuthorityClusters graph inv k).Pairwise (fun c d => ∀ x ∈ c, x ∉ d) ∧
       (∀ c ∈ findAuthorityClusters graph inv k, c.Nodup))) ∧
    findAuthorityClusters graphSingle invSingle .nameRole = [["solo"]] :=
  ⟨findAuthorityClusters_spec, by decide⟩

/-- C4 witness: the cluster properties applied to the concrete two-section
NameRole input. -/
theorem C4_clusters_witness :
    (invRM.map Prod.fst).Nodup ∧
    ((∀ c ∈ findAuthorityClusters graphRM invRM .nameRole, ∀ x ∈ c,
        0 < invCountAt invRM .nameRole x) ∧
     (∀ c ∈ findAuthorityClusters graphRM invRM .nameRole, ∀ x ∈ c, ∀ y,
        (y ∈ c ↔ sameKindReach graphRM.edges invRM .nameRole x y)) ∧
     (findAuthorityClusters graphRM invRM .nameRole).Pairwise
        (fun c d => ∀ x ∈ c, x ∉ d) ∧
     (∀ c ∈ findAuthorityClusters graphRM invRM .nameRole, c.Nodup)) :=
  ⟨by decide, C4_clusters.1 graphRM invRM .nameRole (by decide)⟩

/-- Characterization of the reference scan: the running maximum only grows,
bounds every scanned count, the result records its own count, and a newly
selected reference is the first member beating every earlier count. -/
theorem selectRefLoop_spec (inv : List (String × SectionInventory)) (k : PropKind) :
    ∀ (l : List String) (ref : Option String) (mx : Nat),
    (∀ r, ref = some r → invCountAt inv k r = mx) →
    ((∀ r, (selectRefLoop inv k l ref mx).1 = some r →
        invCountAt inv k r = (selectRefLoop inv k l ref mx).2) ∧
     mx ≤ (selectRefLoop inv k l ref mx).2 ∧
     (∀ m ∈ l, invCountAt inv k m ≤ (selectRefLoop inv k l ref mx).2) ∧
     ((selectRefLoop inv k l ref mx).1 = none →
        ref = none ∧ (selectRefLoop inv k l ref mx).2 = mx) ∧
     (∀ r, (selectRefLoop inv k l ref mx).1 = some r → ref = some r ∨
        (∃ pre post, l = pre ++ r :: post ∧ mx < invCountAt inv k r ∧
          (∀ p ∈ pre, invCountAt inv k p < invCountAt inv k r) ∧
          (selectRefLoop inv k l ref mx).2 = invCountAt inv k r))) := by
  intro l
  induction l with
  | nil =>
    intro ref mx h0
    have hred : selectRefLoop inv k [] ref mx = (ref, mx) := by simp [selectRefLoop]
    rw [hred]
    exact ⟨h0, Nat.le_refl _, by simp, fun h => ⟨h, rfl⟩, fun r hr => Or.inl hr⟩
  | cons sid rest ih =>
    intro ref mx h0
    cases hl : inv.lookup sid with
    | none =>
      have hcnt : invCountAt inv k sid = 0 := by
        unfold invCountAt
        rw [hl]
      have hred : selectRefLoop inv k (sid :: rest) ref mx =
          selectRefLoop inv k rest ref mx := by
        simp only [selectRefLoop, hl]
      rw [hred]
      obtain ⟨k1, k2, k3, k4, k5⟩ := ih ref mx h0
      refine ⟨k1, k2, ?_, k4, ?_⟩
      · intro m hm
        rcases List.mem_cons.mp hm with h | h
        · rw [h, hcnt]; omega
        · exact k3 m h
      · intro r hr
        rcases k5 r hr with h | ⟨pre, post, hsplit, hmx, hpre, hval⟩
        · exact Or.inl h
        · refine Or.inr ⟨sid :: pre, post, by simp [hsplit], hmx, ?_, hval⟩
          intro p hp
          rcases List.mem_cons.mp hp with h | h
          · rw [h, hcnt]; omega
          · exact hpre p h
    | some i =>
      have hcnt : invCountAt inv k sid = (i.props k).length := by
        unfold invCountAt
        rw [hl]
      by_cases hmx : mx < (i.props k).length
      · have hred : selectRefLoop inv k (sid :: rest) ref mx =
            selectRefLoop inv k rest (some sid) (i.props k).length := by
          simp only [selectRefLoop, hl]
          rw [if_pos hmx]
        rw [hred]
        have h0' : ∀ r, (some sid : Option String) = some r →
            invCountAt inv k r = (i.props k).length := by
          intro r hr
          rw [← Option.some.inj hr, hcnt]
        obtain ⟨k1, k2, k3, k4, k5⟩ := ih (some sid) (i.props k).length h0'
        refine ⟨k1, by omega, ?_, ?_, ?_⟩
        · intro m hm
          rcases List.mem_cons.mp hm with h | h
          · rw [h, hcnt]; omega
          · exact k3 m h
        · intro hnone
          exact absurd (k4 hnone).1 (by simp)
        · intro r hr
          rcases k5 r hr with h | ⟨pre, post, hsplit, hmx', hpre, hval⟩
          · refine Or.inr ⟨[], rest, ?_, ?_, by simp, ?_⟩
            · rw [← Option.some.inj h]; simp
            · rw [← Option.some.inj h, hcnt]; exact hmx
            · exact (k1 r hr).symm
          · refine Or.inr ⟨sid :: pre, post, by simp [hsplit], ?_, ?_, hval⟩
            · omega
            · intro p hp
              rcases List.mem_cons.mp hp with h | h
              · rw [h, hcnt]; omega
              · exact hpre p h
      · have hred : selectRefLoop inv k (sid :: rest) ref mx =
            selectRefLoop inv k rest ref mx := by
          simp only [selectRefLoop, hl]
          rw [if_neg hmx]
        rw [hred]
        obtain ⟨k1, k2, k3, k4, k5⟩ := ih ref mx h0
        refine ⟨k1, k2, ?_, k4, ?_⟩
        · intro m hm
          rcases List.mem_cons.mp hm with h | h
          · rw [h, hcnt]; omega
          · exact k3 m h
        · intro r hr
          rcases k5 r hr with h | ⟨pre, post, hsplit, hmx', hpre, hval⟩
          · exact Or.inl h
          · refine Or.inr ⟨sid :: pre, post, by simp [hsplit], hmx', ?_, hval⟩
            intro p hp
            rcases List.mem_cons.mp hp with h | h
            · rw [h, hcnt]; omega
            · exact hpre p h

/-- C5: within every cluster produced by the cluster finder, the delta
engine's reference scan picks a member with maximal raw property count for
the kind; every earlier member has a strictly smaller count, so ties go to
the first member in iteration order, and the policy score plays no role. -/
theorem C5_reference (graph : SectionGraph) (inv : List (String × SectionInventory))
    (k : PropKind) (hnd : (inv.map Prod.fst).Nodup)
    (c : List String) (hc : c ∈ findAuthorityClusters graph inv k) :
    ∃ r, (selectRefLoop inv k c none 0).1 = some r ∧ r ∈ c ∧
      (∀ m ∈ c, invCountAt inv k m ≤ invCountAt inv k r) ∧
      ∃ pre post, c = pre ++ r :: post ∧
        ∀ p ∈ pre, invCountAt inv k p < invCountAt inv k r := by
  obtain ⟨hgood, -, -, -⟩ := findAuthorityClusters_spec graph inv k hnd
  obtain ⟨k1, k2, k3, k4, k5⟩ := selectRefLoop_spec inv k c none 0 (by simp)
  cases hres : (selectRefLoop inv k c none 0).1 with
  | none =>
    exfalso
    obtain ⟨o1, -, -, -, -, -, -⟩ := clustersLoop_spec graph.edges inv k inv []
      (by simp) (fun p hp => lookup_eq_some_of_nodup hnd hp)
    obtain ⟨s, hs, -⟩ := o1 c hc
    have h1 := hgood c hc s hs
    have h2 := k3 s hs
    have h3 := (k4 hres).2
    omega
  | some r =>
    rcases k5 r hres with h | ⟨pre, post, hsplit, -, hpre, hval⟩
    · simp at h
    · refine ⟨r, rfl, ?_, ?_, pre, post, hsplit, ?_⟩
      · rw [hsplit]
        exact List.mem_append.mpr (Or.inr (List.mem_cons_self _ _))
      · intro m hm
        have := k3 m hm
        have := k1 r hres
        omega
      · intro p hp
        have := hpre p hp
        have h1 := k1 r hres
        omega

/-- C5 witness: the reference selection applied to the concrete two-member
cluster of the NameRole example. -/
theorem C5_reference_witness :
    (invRM.map Prod.fst).Nodup ∧
    ["r", "m"] ∈ findAuthorityClusters graphRM invRM .nameRole ∧
    (∃ r, (selectRefLoop invRM .nameRole ["r", "m"] none 0).1 = some r ∧
      r ∈ ["r", "m"] ∧
      (∀ m ∈ ["r", "m"], invCountAt invRM .nameRole m ≤ invCountAt invRM .nameRole r) ∧
      ∃ pre post, ["r", "m"] = pre ++ r :: post ∧
        ∀ p ∈ pre, invCountAt invRM .nameRole p < invCountAt invRM .nameRole r) :=
  ⟨by decide, by decide,
   C5_reference graphRM invRM .nameRole (by decide) ["r", "m"] (by decide)⟩

/-- A cluster whose reference scan picks the empty-string id contributes no
deltas: the falsy guard skips the whole cluster. -/
theorem clusterDeltas_empty_ref (graph : SectionGraph)
    (inv : List (String × SectionInventory)) (k : PropKind) (c : List String)
    (h : (selectRefLoop inv k c none 0).1 = some "") :
    clusterDeltas graph inv k c = [] := by
  simp [clusterDeltas, h]

/-- Structure of a cluster-pass delta: it targets a non-reference cluster
member, is sourced from the selected reference, which passed the falsy
guard (a nonempty id), and carries exactly the reference properties whose
rendered value is absent from the member. -/
theorem clusterDeltas_mem (graph : SectionGraph)
    (inv : List (String × SectionInventory)) (k : PropKind) (c : List String)
    (d : Delta) (hd : d ∈ clusterDeltas graph inv k c) :
    d.propType = k ∧ d.targetSection ∈ c ∧
    ∃ r ri mi, (selectRefLoop inv k c none 0).1 = some r ∧ r ≠ "" ∧
      inv.lookup r = some ri ∧ d.targetSection ≠ r ∧
      inv.lookup d.targetSection = some mi ∧ d.sourceSection = r ∧
      d.missingValues = renderMissing (ri.props k) (mi.props k) ∧
      0 < (renderMissing (ri.props k) (mi.props k)).length := by
  cases hsel : (selectRefLoop inv k c none 0).1 with
  | none => simp [clusterDeltas, hsel] at hd
  | some r =>
    by_cases hr0 : r = ""
    · simp [clusterDeltas, hsel, hr0] at hd
    · cases hri : inv.lookup r with
      | none => simp [clusterDeltas, hsel, hr0, hri] at hd
      | some ri =>
        simp only [clusterDeltas, hsel] at hd
        rw [if_neg hr0] at hd
        simp only [hri, List.mem_flatMap] at hd
        obtain ⟨sid, hsid, hbody⟩ := hd
        by_cases heq : sid = r
        · rw [if_pos heq] at hbody
          simp at hbody
        · rw [if_neg heq] at hbody
          cases hmi : inv.lookup sid with
          | none =>
            simp [hmi] at hbody
          | some mi =>
            simp only [hmi] at hbody
            split at hbody
            · rw [List.mem_singleton] at hbody
              subst hbody
              rename_i hlen
              exact ⟨rfl, hsid, r, ri, mi, rfl, hr0, hri, heq, hmi, rfl, rfl, hlen⟩
            · simp at hbody

/-- Every fallback delta targets a section with zero properties of the
delta's kind. -/
theorem fallbackLoop_target_zero (inv : List (String × SectionInventory)) :
    ∀ (l : List GraphEdge) (processed : List String) (d : Delta),
    d ∈ fallbackLoop inv l processed →
    invCountAt inv d.propType d.targetSection = 0 := by
  intro l
  induction l with
  | nil =>
    intro processed d hd
    simp [fallbackLoop] at hd
  | cons e rest ih =>
    intro processed d hd
    by_cases hkey : fallbackKey e ∈ processed
    · rw [show fallbackLoop inv (e :: rest) processed = fallbackLoop inv rest processed
        from by simp only [fallbackLoop, if_pos hkey]] at hd
      exact ih _ _ hd
    · cases hf : inv.lookup e.from' with
      | none =>
        rw [show fallbackLoop inv (e :: rest) processed =
            fallbackLoop inv rest (fallbackKey e :: processed)
          from by simp only [fallbackLoop, if_neg hkey, hf]] at hd
        exact ih _ _ hd
      | some fromInv =>
        cases ht : inv.lookup e.to' with
        | none =>
          rw [show fallbackLoop inv (e :: rest) processed =
              fallbackLoop inv rest (fallbackKey e :: processed)
            from by simp only [fallbackLoop, if_neg hkey, hf, ht]] at hd
          exact ih _ _ hd
        | some toInv =>
          by_cases h1 : 0 < (fromInv.props e.prop).length ∧ (toInv.props e.prop).length = 0
          · rw [show fallbackLoop inv (e :: rest) processed =
                ({ targetSection := e.to', propType := e.prop,
                   missingValues := fromInv.props e.prop, sourceSection := e.from',
                   confidence := e.weight } : Delta) ::
                  fallbackLoop inv rest (fallbackKey e :: processed)
              from by simp only [fallbackLoop, if_neg hkey, hf, ht, if_pos h1]] at hd
            rcases List.mem_cons.mp hd with h | h
            · subst h
              unfold invCountAt
              rw [ht]
              exact h1.2
            · exact ih _ _ h
          · by_cases h2 : 0 < (toInv.props e.prop).length ∧ (fromInv.props e.prop).length = 0
            · rw [show fallbackLoop inv (e :: rest) processed =
                  ({ targetSection := e.from', propType := e.prop,
                     missingValues := toInv.props e.prop, sourceSection := e.to',
                     confidence := e.weight } : Delta) ::
                    fallbackLoop inv rest (fallbackKey e :: processed)
                from by simp only [fallbackLoop, if_neg hkey, hf, ht, if_neg h1,
                  if_pos h2]] at hd
              rcases List.mem_cons.mp hd with h | h
              · subst h
                unfold invCountAt
                rw [hf]
                exact h2.2
              · exact ih _ _ h
            · rw [show fallbackLoop inv (e :: rest) processed =
                  fallbackLoop inv rest (fallbackKey e :: processed)
                from by simp only [fallbackLoop, if_neg hkey, hf, ht, if_neg h1,
                  if_neg h2]] at hd
              exact ih _ _ hd

/-- C1 counterexample.  First: the two sections hold canonically equal
NameRole properties (CTO abbreviation versus expanded role, same person),
so the claim's comparator-based missing set is empty — the graph comparator
finds nothing missing — and the claim demands no Delta; yet the delta
engine compares raw rendered strings and emits a Delta carrying the
property.  Second: in the cluster whose reference scan picks the
empty-string section id, the member x lacks both reference properties, so
the claim demands a Delta targeting x; yet the falsy reference guard skips
the whole cluster and the engine emits nothing at all. -/
theorem C1_counterexample :
    (canonEqNR ctoShort ctoLong = true ∧
     (compareNameRoles [ctoShort] [ctoLong]).2.1 = [] ∧
     ((computeDeltasFromClusters (findAuthorityClusters graphRM invRM) graphRM invRM).map
       fun d => (d.targetSection, d.sourceSection, d.missingValues.map getPropertyValue)) =
       [("m", "r", ["CTO: John Doe"])]) ∧
    (findAuthorityClusters graphEmptyRef invEmptyRef .nameRole = [["", "x"]] ∧
     (selectRefLoop invEmptyRef .nameRole ["", "x"] none 0).1 = some "" ∧
     0 < (renderMissing ((invNR [ctoShort, cfoProp]).props .nameRole)
       ((invNR [assocProp]).props .nameRole)).length ∧
     computeDeltasFromClusters (findAuthorityClusters graphEmptyRef invEmptyRef)
       graphEmptyRef invEmptyRef = []) :=
  ⟨⟨by decide, by decide, by decide⟩, by decide, by decide, by decide, by decide⟩

/-- C1 amended: for every cluster whose reference r passes the falsy guard
(its id is not the empty string; an empty-string reference id skips the
whole cluster) and every member m, a Delta for (m, kind) is emitted exactly
when some reference property's rendered value string (role-colon-person,
ISO string, or name-colon-value-unit, without the section-4.1
normalization) is absent among the member's rendered values, and its
missingValues are exactly those reference properties. -/
theorem C1_amended (graph : SectionGraph) (inv : List (String × SectionInventory))
    (k : PropKind) (hnd : (inv.map Prod.fst).Nodup)
    (c : List String) (hc : c ∈ findAuthorityClusters graph inv k)
    (r : String) (hr : (selectRefLoop inv k c none 0).1 = some r) (hr0 : r ≠ "")
    (ri : SectionInventory) (hri : inv.lookup r = some ri)
    (m : String) (hm : m ∈ c) (hne : m ≠ r)
    (mi : SectionInventory) (hmi : inv.lookup m = some mi) :
    (0 < (renderMissing (ri.props k) (mi.props k)).length →
      ∃ d ∈ computeDeltasFromClusters (findAuthorityClusters graph inv) graph inv,
        d.targetSection = m ∧ d.propType = k ∧ d.sourceSection = r ∧
        d.missingValues = renderMissing (ri.props k) (mi.props k)) ∧
    ((renderMissing (ri.props k) (mi.props k)).length = 0 →
      ∀ d ∈ computeDeltasFromClusters (findAuthorityClusters graph inv) graph inv,
        ¬(d.targetSection = m ∧ d.propType = k)) := by
  constructor
  · intro hpos
    refine ⟨{ targetSection := m, propType := k,
              missingValues := renderMissing (ri.props k) (mi.props k),
              sourceSection := r,
              confidence :=
                match graph.edges.find? (fun e => e.prop = k ∧
                    ((e.from' = r ∧ e.to' = m) ∨ (e.from' = m ∧ e.to' = r))) with
                | some e => if e.weight = 0 then 0.75 else e.weight
                | none => 0.75 }, ?_, rfl, rfl, rfl, rfl⟩
    unfold computeDeltasFromClusters
    refine List.mem_append.mpr (Or.inl ?_)
    rw [List.mem_flatMap]
    refine ⟨k, by cases k <;> simp [kindsInOrder], ?_⟩
    rw [List.mem_flatMap]
    refine ⟨c, hc, ?_⟩
    simp only [clusterDeltas, hr]
    rw [if_neg hr0]
    simp only [hri, List.mem_flatMap]
    refine ⟨m, hm, ?_⟩
    rw [if_neg hne]
    simp only [hmi]
    split
    · exact List.mem_singleton.mpr rfl
    · rename_i hneg
      exact absurd hpos hneg
  · intro hzero d hd hcontra
    obtain ⟨htarget, hkind⟩ := hcontra
    unfold computeDeltasFromClusters at hd
    rcases List.mem_append.mp hd with hcl | hfb
    · rw [List.mem_flatMap] at hcl
      obtain ⟨k', -, hcl⟩ := hcl
      rw [List.mem_flatMap] at hcl
      obtain ⟨c', hc', hdc⟩ := hcl
      obtain ⟨hk', htmem, r', ri', mi', hr', -, hri', -, hmi', -, -, hlen⟩ :=
        clusterDeltas_mem graph inv k' c' d hdc
      obtain rfl : k = k' := hkind.symm.trans hk'
      by_cases hcc : c' = c
      · subst hcc
        obtain rfl : r' = r := Option.some.inj (hr'.symm.trans hr)
        obtain rfl : ri' = ri := Option.some.inj (hri'.symm.trans hri)
        rw [htarget] at hmi'
        obtain rfl : mi' = mi := Option.some.inj (hmi'.symm.trans hmi)
        omega
      · obtain ⟨-, -, hpair, -⟩ := findAuthorityClusters_spec graph inv k hnd
        have hpair' : (findAuthorityClusters graph inv k).Pairwise
            (fun a b => (∀ x ∈ a, x ∉ b) ∨ (∀ x ∈ b, x ∉ a)) :=
          hpair.imp fun h => Or.inl h
        have hsym : Symmetric (fun a b : List String =>
            (∀ x ∈ a, x ∉ b) ∨ (∀ x ∈ b, x ∉ a)) := by
          intro a b h
          exact h.symm
        have := List.Pairwise.forall hsym hpair' hc' hc hcc
        rw [htarget] at htmem
        rcases this with h | h
        · exact h m htmem hm
        · exact h m hm htmem
    · have := fallbackLoop_target_zero inv graph.edges [] d hfb
      rw [htarget, hkind] at this
      obtain ⟨hgood, -, -, -⟩ := findAuthorityClusters_spec graph inv k hnd
      have := hgood c hc m hm
      omega

/-- C1 witness: the amended statement applied to the concrete
abbreviation-mismatch cluster, where the rendered-value missing set is
nonempty and the Delta is emitted. -/
theorem C1_amended_witness :
    (invRM.map Prod.fst).Nodup ∧
    ["r", "m"] ∈ findAuthorityClusters graphRM invRM .nameRole ∧
    (selectRefLoop invRM .nameRole ["r", "m"] none 0).1 = some "r" ∧
    ("r" : String) ≠ "" ∧
    invRM.lookup "r" = some (invNR [ctoShort]) ∧
    ("m" : String) ∈ ["r", "m"] ∧ ("m" : String) ≠ "r" ∧
    invRM.lookup "m" = some (invNR [ctoLong]) ∧
    ((0 < (renderMissing ((invNR [ctoShort]).props .nameRole)
        ((invNR [ctoLong]).props .nameRole)).length →
      ∃ d ∈ computeDeltasFromClusters (findAuthorityClusters graphRM invRM)
          graphRM invRM,
        d.targetSection = "m" ∧ d.propType = .nameRole ∧ d.sourceSection = "r" ∧
        d.missingValues = renderMissing ((invNR [ctoShort]).props .nameRole)
          ((invNR [ctoLong]).props .nameRole)) ∧
     ((renderMissing ((invNR [ctoShort]).props .nameRole)
        ((invNR [ctoLong]).props .nameRole)).length = 0 →
      ∀ d ∈ computeDeltasFromClusters (findAuthorityClusters graphRM invRM)
          graphRM invRM,
        ¬(d.targetSection = "m" ∧ d.propType = .nameRole))) :=
  ⟨by decide, by decide, by decide, by decide, rfl, by decide, by decide, rfl,
   C1_amended graphRM invRM .nameRole (by decide) ["r", "m"] (by decide)
     "r" (by decide) (by decide) (invNR [ctoShort]) rfl "m" (by decide) (by decide)
     (invNR [ctoLong]) rfl⟩

/-- The fallback pass emits the expected delta for an edge whose dedup key
is not already processed and does not collide with any earlier edge's key,
when exactly one endpoint holds properties of the edge's kind. -/
theorem fallbackLoop_emit (inv : List (String × SectionInventory)) (e : GraphEdge)
    (fi ti : SectionInventory)
    (hf : inv.lookup e.from' = some fi) (ht : inv.lookup e.to' = some ti) :
    ∀ (pre post : List GraphEdge) (processed : List String),
    fallbackKey e ∉ processed →
    (∀ e' ∈ pre, fallbackKey e' ≠ fallbackKey e) →
    ((0 < (fi.props e.prop).length ∧ (ti.props e.prop).length = 0 →
      ({ targetSection := e.to', propType := e.prop,
         missingValues := fi.props e.prop, sourceSection := e.from',
         confidence := e.weight } : Delta) ∈
        fallbackLoop inv (pre ++ e :: post) processed) ∧
     (0 < (ti.props e.prop).length ∧ (fi.props e.prop).length = 0 →
      ({ targetSection := e.from', propType := e.prop,
         missingValues := ti.props e.prop, sourceSection := e.to',
         confidence := e.weight } : Delta) ∈
        fallbackLoop inv (pre ++ e :: post) processed)) := by
  intro pre
  induction pre with
  | nil =>
    intro post processed hkey _
    constructor
    · intro hA
      rw [show fallbackLoop inv ([] ++ e :: post) processed =
          ({ targetSection := e.to', propType := e.prop,
             missingValues := fi.props e.prop, sourceSection := e.from',
             confidence := e.weight } : Delta) ::
            fallbackLoop inv post (fallbackKey e :: processed)
        from by simp only [List.nil_append, fallbackLoop, if_neg hkey, hf, ht,
          if_pos hA]]
      exact List.mem_cons_self _ _
    · intro hB
      have hnA : ¬(0 < (fi.props e.prop).length ∧ (ti.props e.prop).length = 0) := by
        intro hA
        omega
      rw [show fallbackLoop inv ([] ++ e :: post) processed =
          ({ targetSection := e.from', propType := e.prop,
             missingValues := ti.props e.prop, sourceSection := e.to',
             confidence := e.weight } : Delta) ::
            fallbackLoop inv post (fallbackKey e :: processed)
        from by simp only [List.nil_append, fallbackLoop, if_neg hkey, hf, ht,
          if_neg hnA, if_pos hB]]
      exact List.mem_cons_self _ _
  | cons e' rest ih =>
    intro post processed hkey hpre
    have hne : fallbackKey e' ≠ fallbackKey e := hpre e' (List.mem_cons_self _ _)
    have hpre' : ∀ a ∈ rest, fallbackKey a ≠ fallbackKey e :=
      fun a ha => hpre a (List.mem_cons_of_mem _ ha)
    by_cases hk : fallbackKey e' ∈ processed
    · have hred : fallbackLoop inv ((e' :: rest) ++ e :: post) processed =
          fallbackLoop inv (rest ++ e :: post) processed := by
        simp only [List.cons_append, fallbackLoop, if_pos hk]
        rfl
      rw [hred]
      exact ih post processed hkey hpre'
    · have hkey' : fallbackKey e ∉ fallbackKey e' :: processed := by
        intro h
        rcases List.mem_cons.mp h with h0 | h0
        · exact hne h0.symm
        · exact hkey h0
      have hrec := ih post (fallbackKey e' :: processed) hkey' hpre'
      cases hf' : inv.lookup e'.from' with
      | none =>
        have hred : fallbackLoop inv ((e' :: rest) ++ e :: post) processed =
            fallbackLoop inv (rest ++ e :: post) (fallbackKey e' :: processed) := by
          simp only [List.cons_append, fallbackLoop, if_neg hk, hf']
          rfl
        rw [hred]
        exact hrec
      | some fi' =>
        cases ht' : inv.lookup e'.to' with
        | none =>
          have hred : fallbackLoop inv ((e' :: rest) ++ e :: post) processed =
              fallbackLoop inv (rest ++ e :: post) (fallbackKey e' :: processed) := by
            simp only [List.cons_append, fallbackLoop, if_neg hk, hf', ht']
            rfl
          rw [hred]
          exact hrec
        | some ti' =>
          by_cases h1 : 0 < (fi'.props e'.prop).length ∧ (ti'.props e'.prop).length = 0
          · have hred : fallbackLoop inv ((e' :: rest) ++ e :: post) processed =
                ({ targetSection := e'.to', propType := e'.prop,
                   missingValues := fi'.props e'.prop, sourceSection := e'.from',
                   confidence := e'.weight } : Delta) ::
                  fallbackLoop inv (rest ++ e :: post) (fallbackKey e' :: processed) := by
              simp only [List.cons_append, fallbackLoop, if_neg hk, hf', ht', if_pos h1]
              rfl
            rw [hred]
            exact ⟨fun hA => List.mem_cons_of_mem _ (hrec.1 hA),
                   fun hB => List.mem_cons_of_mem _ (hrec.2 hB)⟩
          · by_cases h2 : 0 < (ti'.props e'.prop).length ∧ (fi'.props e'.prop).length = 0
            · have hred : fallbackLoop inv ((e' :: rest) ++ e :: post) processed =
                  ({ targetSection := e'.from', propType := e'.prop,
                     missingValues := ti'.props e'.prop, sourceSection := e'.to',
                     confidence := e'.weight } : Delta) ::
                    fallbackLoop inv (rest ++ e :: post)
                      (fallbackKey e' :: processed) := by
                simp only [List.cons_append, fallbackLoop, if_neg hk, hf', ht',
                  if_neg h1, if_pos h2]
                rfl
              rw [hred]
              exact ⟨fun hA => List.mem_cons_of_mem _ (hrec.1 hA),
                     fun hB => List.mem_cons_of_mem _ (hrec.2 hB)⟩
            · have hred : fallbackLoop inv ((e' :: rest) ++ e :: post) processed =
                  fallbackLoop inv (rest ++ e :: post)
                    (fallbackKey e' :: processed) := by
                simp only [List.cons_append, fallbackLoop, if_neg hk, hf', ht',
                  if_neg h1, if_neg h2]
                rfl
              rw [hred]
              exact hrec

/-- C6 counterexample: two distinct (from, to, kind) triples built from
hyphenated section ids share the dedup key a-b-c-Date; the later edge from
a to b-c qualifies for a fallback delta (a holds zero dates, b-c holds
one), but the shared key suppresses it, so no delta from b-c to a is
emitted anywhere. -/
theorem C6_counterexample :
    (graphColl.edges.map fun e => (e.from', e.to', fallbackKey e)) =
      [("a-b", "c", "a-b-c-Date"), ("a-b", "a", "a-b-a-Date"),
       ("a-b", "b-c", "a-b-b-c-Date"), ("c", "b-c", "c-b-c-Date"),
       ("a", "b-c", "a-b-c-Date")] ∧
    (∃ e ∈ graphColl.edges, e.from' = "a" ∧ e.to' = "b-c" ∧ e.prop = .date) ∧
    invCountAt invColl .date "a" = 0 ∧ 0 < invCountAt invColl .date "b-c" ∧
    ∀ d ∈ computeDeltasFromClusters (findAuthorityClusters graphColl invColl)
        graphColl invColl,
      ¬(d.targetSection = "a" ∧ d.sourceSection = "b-c") :=
  ⟨by decide, by decide, by decide, by decide, by decide⟩

/-- C6 amended: for every graph edge whose dedup key (the unescaped string
from-to-kind) does not collide with an earlier edge's key, if exactly one
endpoint holds zero properties of the edge's kind, the fallback pass emits
a delta targeting the zero side, sourced from the other side, carrying all
of the source's properties with confidence equal to the edge weight. -/
theorem C6_amended (graph : SectionGraph) (inv : List (String × SectionInventory))
    (pre post : List GraphEdge) (e : GraphEdge)
    (hsplit : graph.edges = pre ++ e :: post)
    (hpre : ∀ e' ∈ pre, fallbackKey e' ≠ fallbackKey e)
    (fi ti : SectionInventory)
    (hf : inv.lookup e.from' = some fi) (ht : inv.lookup e.to' = some ti) :
    (0 < (fi.props e.prop).length ∧ (ti.props e.prop).length = 0 →
      ∃ d ∈ computeDeltasFromClusters (findAuthorityClusters graph inv) graph inv,
        d.targetSection = e.to' ∧ d.propType = e.prop ∧
        d.missingValues = fi.props e.prop ∧ d.sourceSection = e.from' ∧
        d.confidence = e.weight) ∧
    (0 < (ti.props e.prop).length ∧ (fi.props e.prop).length = 0 →
      ∃ d ∈ computeDeltasFromClusters (findAuthorityClusters graph inv) graph inv,
        d.targetSection = e.from' ∧ d.propType = e.prop ∧
        d.missingValues = ti.props e.prop ∧ d.sourceSection = e.to' ∧
        d.confidence = e.weight) := by
  have hemit := fallbackLoop_emit inv e fi ti hf ht pre post [] (by simp) hpre
  constructor
  · intro hA
    refine ⟨{ targetSection := e.to', propType := e.prop,
              missingValues := fi.props e.prop, sourceSection := e.from',
              confidence := e.weight }, ?_, rfl, rfl, rfl, rfl, rfl⟩
    unfold computeDeltasFromClusters
    refine List.mem_append.mpr (Or.inr ?_)
    rw [hsplit]
    exact hemit.1 hA
  · intro hB
    refine ⟨{ targetSection := e.from', propType := e.prop,
              missingValues := ti.props e.prop, sourceSection := e.to',
              confidence := e.weight }, ?_, rfl, rfl, rfl, rfl, rfl⟩
    unfold computeDeltasFromClusters
    refine List.mem_append.mpr (Or.inr ?_)
    rw [hsplit]
    exact hemit.2 hB

/-- C6 witness: the amended statement applied to the Scenario-B graph, a
single weight-0.6 NameRole edge from a three-property section to a
zero-property section. -/
theorem C6_amended_witness :
    graphScenB.edges = [] ++ edgeScenB :: [] ∧
    invScenB.lookup edgeScenB.from' = some (invNR [ctoShort, cfoProp, assocProp]) ∧
    invScenB.lookup edgeScenB.to' = some (invNR []) ∧
    (0 < ((invNR [ctoShort, cfoProp, assocProp]).props edgeScenB.prop).length ∧
      ((invNR []).props edgeScenB.prop).length = 0 →
      ∃ d ∈ computeDeltasFromClusters (findAuthorityClusters graphScenB invScenB)
          graphScenB invScenB,
        d.targetSection = edgeScenB.to' ∧ d.propType = edgeScenB.prop ∧
        d.missingValues = (invNR [ctoShort, cfoProp, assocProp]).props edgeScenB.prop ∧
        d.sourceSection = edgeScenB.from' ∧ d.confidence = edgeScenB.weight) :=
  ⟨rfl, rfl, rfl,
   (C6_amended graphScenB invScenB [] [] edgeScenB rfl (by simp) _ _ rfl rfl).1⟩

/-- The last element of a list delivered by getLast? is a member. -/
theorem mem_of_getLast {α} {l : List α} {a : α} (h : l.getLast? = some a) :
    a ∈ l := by
  induction l with
  | nil => simp [List.getLast?] at h
  | cons x xs ih =>
    cases xs with
    | nil =>
      simp [List.getLast?] at h
      simp [h]
    | cons y ys =>
      rw [List.getLast?_cons_cons] at h
      exact List.mem_cons_of_mem x (ih h)

/-- C7 counterexample.  First: a section whose content is nonempty but starts
with a blank line gets the beginning_of_section strategy, refuting the
spec's only-when-empty condition and its first-nonblank-line anchor.
Second: a content with a numbered item followed by a later hyphen item
anchors at the numbered item (last match of the first matching pattern),
while a hyphen list-item pattern occurs later in the content, refuting the
last-occurrence-of-any-pattern reading. -/
theorem C7_counterexample :
    (secBlankFirst.content ≠ "" ∧
      findAnchor secBlankFirst .date =
        { text := "\nHello", strategy := "beginning_of_section" }) ∧
    (findAnchor secList .nameRole =
        { text := "1. John", strategy := "after_last_list_item" } ∧
      matchHyphenItem (secList.content.data.drop 8) =
        some ("- Mark".data, [])) := by
  decide

/-- C7 (amended): the anchor of an empty-content section is the empty text
with strategy beginning_of_section; for non-NameRole kinds, and for NameRole
contents in which no list-item pattern matches, the anchor is the heading
default; the heading default is the trimmed first line with strategy
after_heading when that trimmed first line is nonempty, and otherwise the
prefix before the first sentence terminator (or the first fifty characters
when that prefix is empty) with strategy beginning_of_section, even when the
content is nonempty; and for NameRole with a matching pattern, the anchor is
the last match of the first pattern that matches at all, in the order
bullet, numbered, hyphen, with strategy after_last_list_item. -/
theorem C7_amended (sec : Section') (k : PropKind) :
    (sec.content = "" →
      findAnchor sec k = { text := "", strategy := "beginning_of_section" }) ∧
    ((k ≠ .nameRole ∨ lastListItem sec.content.data = none) →
      findAnchor sec k = headingOrDefault sec.content) ∧
    (0 < (jsTrimChars (firstLineOf sec.content).data).length →
      headingOrDefault sec.content =
        { text := jsTrim (firstLineOf sec.content), strategy := "after_heading" }) ∧
    ((jsTrimChars (firstLineOf sec.content).data).length = 0 →
      headingOrDefault sec.content =
        { text := if sentencePrefixOf sec.content = "" then ⟨sec.content.data.take 50⟩
                  else sentencePrefixOf sec.content,
          strategy := "beginning_of_section" }) ∧
    (k = .nameRole → ∀ m, lastListItem sec.content.data = some m →
      findAnchor sec k = { text := ⟨m⟩, strategy := "after_last_list_item" } ∧
      (m ∈ scanAll matchBulletItem sec.content.data ∨
       m ∈ scanAll matchNumItem sec.content.data ∨
       m ∈ scanAll matchHyphenItem sec.content.data)) := by
  refine ⟨?_, ?_, ?_, ?_, ?_⟩
  · intro h
    cases k <;> simp only [findAnchor, h] <;> decide
  · intro hor
    rcases hor with hk | hnone
    · cases k with
      | nameRole => exact absurd rfl hk
      | date => rfl
      | terms => rfl
    · cases k with
      | nameRole =>
        have hstep : findAnchor sec .nameRole =
            (match lastListItem sec.content.data with
             | some m => { text := ⟨m⟩, strategy := "after_last_list_item" }
             | none => headingOrDefault sec.content : Anchor) := rfl
        rw [hstep, hnone]
      | date => rfl
      | terms => rfl
  · intro hpos
    have hpos' :
        0 < (jsTrimChars (sec.content.data.takeWhile (fun c => !(c = '\n')))).length :=
      hpos
    simp only [headingOrDefault]
    rw [if_pos hpos']
    rfl
  · intro hz
    have hz' :
        ¬ 0 < (jsTrimChars (sec.content.data.takeWhile (fun c => !(c = '\n')))).length := by
      have h0 : (jsTrimChars (sec.content.data.takeWhile (fun c => !(c = '\n')))).length = 0 :=
        hz
      omega
    simp only [headingOrDefault]
    rw [if_neg hz']
    by_cases hse :
        sec.content.data.takeWhile (fun c => !(c = '.' ∨ c = '!' ∨ c = '?')) = []
    · have h1 :
          (sec.content.data.takeWhile (fun c => !(c = '.' ∨ c = '!' ∨ c = '?'))).isEmpty =
            true := by
        rw [hse]; rfl
      have h2 : sentencePrefixOf sec.content = "" := by
        unfold sentencePrefixOf
        rw [hse]
      rw [if_pos h1, if_pos h2]
    · have h1 :
          ¬ ((sec.content.data.takeWhile (fun c => !(c = '.' ∨ c = '!' ∨ c = '?'))).isEmpty =
            true) := by
        intro hc
        exact hse (List.isEmpty_iff.mp hc)
      have h2 : ¬ (sentencePrefixOf sec.content = "") := by
        unfold sentencePrefixOf
        intro hc
        exact hse (congrArg String.data hc)
      rw [if_neg h1, if_neg h2]
      rfl
  · intro hk m hm
    subst hk
    have hstep : findAnchor sec .nameRole =
        (match lastListItem sec.content.data with
         | some m => { text := ⟨m⟩, strategy := "after_last_list_item" }
         | none => headingOrDefault sec.content : Anchor) := rfl
    refine ⟨?_, ?_⟩
    · rw [hstep, hm]
    · unfold lastListItem at hm
      cases h1 : (scanAll matchBulletItem sec.content.data).getLast? with
      | some m1 =>
        rw [h1] at hm
        obtain rfl : m1 = m := Option.some.inj hm
        exact Or.inl (mem_of_getLast h1)
      | none =>
        rw [h1] at hm
        cases h2 : (scanAll matchNumItem sec.content.data).getLast? with
        | some m2 =>
          rw [h2] at hm
          obtain rfl : m2 = m := Option.some.inj hm
          exact Or.inr (Or.inl (mem_of_getLast h2))
        | none =>
          rw [h2] at hm
          cases h3 : (scanAll matchHyphenItem sec.content.data).getLast? with
          | some m3 =>
            rw [h3] at hm
            obtain rfl : m3 = m := Option.some.inj hm
            exact Or.inr (Or.inr (mem_of_getLast h3))
          | none =>
            rw [h3] at hm
            exact Option.noConfusion hm

/-- C7 witness: on the numbered-plus-hyphen content with a non-NameRole
kind, the amended statement yields the trimmed first line with the
after_heading strategy. -/
theorem C7_amended_witness :
    findAnchor secList .date = { text := "1. John", strategy := "after_heading" } := by
  have h := C7_amended secList .date
  calc findAnchor secList .date
      = headingOrDefault secList.content := h.2.1 (Or.inl (by decide))
    _ = { text := jsTrim (firstLineOf secList.content), strategy := "after_heading" } :=
        h.2.2.1 (by decide)
    _ = { text := "1. John", strategy := "after_heading" } := by decide

/-- C8 counterexample: a missing property with extraction confidence 0 (a
value in [0, 1]) is replaced by the 0.8 default before averaging, so the
emitted confidence is 0.92 and not the spec mean 0.6. -/
theorem C8_counterexample :
    deltaZeroConf.confidence = 1 ∧
    zeroConfProp.conf = 0 ∧
    (generateUpdateSuggestions [deltaZeroConf] graphRM).map SuggestedUpdate.confidence =
      [(1 : ℚ) * 0.6 + ([(0.8 : ℚ)].sum) / ((1 : Nat) : ℚ) * 0.4] ∧
    (1 : ℚ) * 0.6 + ([(0.8 : ℚ)].sum) / ((1 : Nat) : ℚ) * 0.4 = 0.92 ∧
    (1 : ℚ) * 0.6 + 0 * 0.4 = 0.6 ∧
    (0.92 : ℚ) ≠ 0.6 := by
  refine ⟨rfl, rfl, rfl, ?_, by norm_num, by norm_num⟩
  rw [List.sum_singleton]
  norm_num

/-- C8 (amended): every emitted update comes from a delta with a nonempty
missing list found in the graph's nodes, and its confidence is
delta.confidence * 0.6 plus 0.4 times the mean over the missing properties
of the defaulted extraction confidence, where a zero extraction confidence
is replaced by 0.8; when every extraction confidence is nonzero this is the
spec's plain mean. -/
theorem C8_amended (deltas : List Delta) (graph : SectionGraph)
    (u : SuggestedUpdate) (hu : u ∈ generateUpdateSuggestions deltas graph) :
    ∃ d ∈ deltas, u.section' = d.targetSection ∧ u.values = d.missingValues ∧
      0 < d.missingValues.length ∧
      u.confidence = d.confidence * 0.6 +
        (d.missingValues.map defaultedConf).sum / (d.missingValues.length : ℚ) * 0.4 ∧
      ((∀ p ∈ d.missingValues, p.conf ≠ 0) →
        u.confidence = d.confidence * 0.6 +
          (d.missingValues.map PropObj.conf).sum / (d.missingValues.length : ℚ) * 0.4) := by
  simp only [generateUpdateSuggestions, List.mem_flatMap] at hu
  obtain ⟨d, hd, hu⟩ := hu
  refine ⟨d, hd, ?_⟩
  cases hT : graph.nodes.find? (fun n => n.id = d.targetSection) with
  | none =>
    simp only [hT] at hu
    simp at hu
  | some T =>
    cases hS : graph.nodes.find? (fun n => n.id = d.sourceSection) with
    | none =>
      simp only [hT, hS] at hu
      simp at hu
    | some S =>
      simp only [hT, hS] at hu
      by_cases hlen : d.missingValues.length = 0
      · rw [if_pos hlen] at hu
        simp at hu
      · rw [if_neg hlen] at hu
        simp only [List.mem_singleton] at hu
        subst hu
        refine ⟨rfl, rfl, Nat.pos_of_ne_zero hlen, rfl, ?_⟩
        intro hall
        have hmap : d.missingValues.map (fun p => if p.conf = 0 then (0.8 : ℚ) else p.conf) =
            d.missingValues.map PropObj.conf :=
          List.map_congr_left (fun p hp => if_neg (hall p hp))
        rw [← hmap]

/-- C8 witness: the amended statement applied to the zero-confidence delta
over the two-section graph; the update list is nonempty, so its head is a
member. -/
theorem C8_amended_witness :
    ∃ d ∈ [deltaZeroConf],
      ((generateUpdateSuggestions [deltaZeroConf] graphRM).headD defaultUpdate).section' =
          d.targetSection ∧
        ((generateUpdateSuggestions [deltaZeroConf] graphRM).headD defaultUpdate).values =
          d.missingValues ∧
        0 < d.missingValues.length ∧
        ((generateUpdateSuggestions [deltaZeroConf] graphRM).headD defaultUpdate).confidence =
          d.confidence * 0.6 +
            (d.missingValues.map defaultedConf).sum / (d.missingValues.length : ℚ) * 0.4 ∧
        ((∀ p ∈ d.missingValues, p.conf ≠ 0) →
          ((generateUpdateSuggestions [deltaZeroConf] graphRM).headD defaultUpdate).confidence =
            d.confidence * 0.6 +
              (d.missingValues.map PropObj.conf).sum / (d.missingValues.length : ℚ) * 0.4) :=
  C8_amended [deltaZeroConf] graphRM
    ((generateUpdateSuggestions [deltaZeroConf] graphRM).headD defaultUpdate)
    (headD_mem_of_pos _ defaultUpdate (by decide))

/-- A winner of the primary-authority scan is a scanned member, unless it
was already the running best. -/
theorem selectPrimaryLoop_mem (graph : SectionGraph)
    (inv : List (String × SectionInventory)) (k : PropKind) :
    ∀ (l : List String) (best : Option String) (s : ℚ) (b : String),
      (selectPrimaryLoop graph inv k l best s).1 = some b → b ∈ l ∨ best = some b := by
  intro l
  induction l with
  | nil =>
    intro best s b h
    exact Or.inr h
  | cons x rest ih =>
    intro best s b h
    simp only [selectPrimaryLoop] at h
    cases hl : inv.lookup x with
    | none =>
      rw [hl] at h
      rcases ih best s b h with hm | hb
      · exact Or.inl (List.mem_cons_of_mem x hm)
      · exact Or.inr hb
    | some i =>
      rw [hl] at h
      cases hf : graph.nodes.find? (fun n => n.id = x) with
      | none =>
        rw [hf] at h
        rcases ih best s b h with hm | hb
        · exact Or.inl (List.mem_cons_of_mem x hm)
        · exact Or.inr hb
      | some sec =>
        rw [hf] at h
        have h2 : (if s < ((i.props k).length : ℚ) * 0.7 + getSectionPolicyScore sec k * 0.3
            then selectPrimaryLoop graph inv k rest (some x)
                (((i.props k).length : ℚ) * 0.7 + getSectionPolicyScore sec k * 0.3)
            else selectPrimaryLoop graph inv k rest best s).1 = some b := h
        by_cases hlt :
            s < ((i.props k).length : ℚ) * 0.7 + getSectionPolicyScore sec k * 0.3
        · rw [if_pos hlt] at h2
          rcases ih (some x) _ b h2 with hm | hb
          · exact Or.inl (List.mem_cons_of_mem x hm)
          · exact Or.inl (Option.some.inj hb ▸ List.mem_cons_self x rest)
        · rw [if_neg hlt] at h2
          rcases ih best s b h2 with hm | hb
          · exact Or.inl (List.mem_cons_of_mem x hm)
          · exact Or.inr hb

/-- C9 counterexample: a one-section input whose section id is the empty
string and which holds a NameRole property yields the sentinel "unknown",
although sections exist (the spec reserves the sentinel for the no-section
case and otherwise demands the first section's id). -/
theorem C9_counterexample :
    (generateSuggestions graphEmptyId invEmptyId).authoritative.section' = "unknown" ∧
    graphEmptyId.nodes = [secEmptyId] ∧ secEmptyId.id = "" ∧
    invCountAt invEmptyId .nameRole "" = 1 := by
  refine ⟨?_, rfl, rfl, rfl⟩
  have hstep : selectPrimaryLoop graphEmptyId invEmptyId .nameRole [""] none (-1) =
      if (-1 : ℚ) < ((1 : Nat) : ℚ) * 0.7 + (4 : ℚ) * 0.3 then
        (some "", ((1 : Nat) : ℚ) * 0.7 + (4 : ℚ) * 0.3)
      else (none, -1) := rfl
  rw [if_pos (by norm_num)] at hstep
  have hA : selectPrimaryAuthoritiesFromClusters
      (findAuthorityClusters graphEmptyId invEmptyId) graphEmptyId invEmptyId .nameRole =
      none := by
    have e : selectPrimaryAuthoritiesFromClusters
        (findAuthorityClusters graphEmptyId invEmptyId) graphEmptyId invEmptyId .nameRole =
        match (selectPrimaryLoop graphEmptyId invEmptyId .nameRole [""] none (-1)).1 with
        | some b => if b = "" then none else some b
        | none => none := rfl
    rw [e, hstep]
    rfl
  have e0 : (generateSuggestions graphEmptyId invEmptyId).authoritative.section' =
      (match (match selectPrimaryAuthoritiesFromClusters
                (findAuthorityClusters graphEmptyId invEmptyId) graphEmptyId invEmptyId
                .nameRole with
              | some s => some s
              | none =>
                match selectPrimaryAuthoritiesFromClusters
                    (findAuthorityClusters graphEmptyId invEmptyId) graphEmptyId invEmptyId
                    .date with
                | some s => some s
                | none =>
                  selectPrimaryAuthoritiesFromClusters
                    (findAuthorityClusters graphEmptyId invEmptyId) graphEmptyId invEmptyId
                    .terms) with
       | some p => p
       | none =>
         match graphEmptyId.nodes.head? with
         | some n => if n.id = "" then "unknown" else n.id
         | none => "unknown") := rfl
  rw [e0, hA]
  rfl

/-- C9 (amended): the report's top-level authoritative section is the first
kind in the order NameRole, Date, Terms whose primary-authority scan yields
a section, and otherwise the first node's id — except that both a winning
section with the empty-string id and a first node with the empty-string id
fall through (JavaScript falsiness), the former to the next fallback and
the latter to the sentinel "unknown", which is also produced when there are
no nodes; moreover every per-kind authority actually produced is a
nonempty-id member of that kind's flattened clusters. -/
theorem C9_amended (graph : SectionGraph) (inv : List (String × SectionInventory)) :
    ((generateSuggestions graph inv).authoritative.section' =
      match kindsInOrder.findSome?
          (selectPrimaryAuthoritiesFromClusters (findAuthorityClusters graph inv)
            graph inv) with
      | some p => p
      | none =>
        match graph.nodes.head? with
        | some n => if n.id = "" then "unknown" else n.id
        | none => "unknown") ∧
    (∀ k, match selectPrimaryAuthoritiesFromClusters (findAuthorityClusters graph inv)
        graph inv k with
      | some b => b ≠ "" ∧ b ∈ ((findAuthorityClusters graph inv) k).flatten
      | none => True) := by
  constructor
  · have e0 : (generateSuggestions graph inv).authoritative.section' =
        (match (match selectPrimaryAuthoritiesFromClusters (findAuthorityClusters graph inv)
                  graph inv .nameRole with
                | some s => some s
                | none =>
                  match selectPrimaryAuthoritiesFromClusters
                      (findAuthorityClusters graph inv) graph inv .date with
                  | some s => some s
                  | none =>
                    selectPrimaryAuthoritiesFromClusters (findAuthorityClusters graph inv)
                      graph inv .terms) with
         | some p => p
         | none =>
           match graph.nodes.head? with
           | some n => if n.id = "" then "unknown" else n.id
           | none => "unknown") := rfl
    rw [e0]
    generalize selectPrimaryAuthoritiesFromClusters (findAuthorityClusters graph inv)
      graph inv = A
    cases hn : A .nameRole <;> cases hd : A .date <;> cases ht : A .terms <;>
      simp [kindsInOrder, List.findSome?, hn, hd, ht]
  · intro k
    cases hk : selectPrimaryAuthoritiesFromClusters (findAuthorityClusters graph inv)
        graph inv k with
    | none => trivial
    | some b =>
      simp only [selectPrimaryAuthoritiesFromClusters] at hk
      cases h0 : (selectPrimaryLoop graph inv k
          ((findAuthorityClusters graph inv) k).flatten none (-1)).1 with
      | none =>
        rw [h0] at hk
        exact absurd hk (by simp)
      | some b0 =>
        rw [h0] at hk
        have hk' : (if b0 = "" then none else some b0 : Option String) = some b := hk
        by_cases hb0 : b0 = ""
        · rw [if_pos hb0] at hk'
          exact absurd hk' (by simp)
        · rw [if_neg hb0] at hk'
          obtain rfl : b0 = b := Option.some.inj hk'
          refine ⟨hb0, ?_⟩
          rcases selectPrimaryLoop_mem graph inv k
              ((findAuthorityClusters graph inv) k).flatten none (-1) b0 h0 with hm | hc
          · exact hm
          · exact absurd hc (by simp)

/-- Two distinct members of a list appear in its ordered-pair list in one of
the two orders. -/
theorem pairsOf_cover {l : List α} {a b : α} (ha : a ∈ l) (hb : b ∈ l)
    (hab : a ≠ b) : (a, b) ∈ pairsOf l ∨ (b, a) ∈ pairsOf l := by
  induction l with
  | nil => simp at ha
  | cons x xs ih =>
    simp only [pairsOf, List.mem_append, List.mem_map]
    rcases List.mem_cons.mp ha with rfl | ha'
    · rcases List.mem_cons.mp hb with rfl | hb'
      · exact absurd rfl hab
      · exact Or.inl (Or.inl ⟨b, hb', rfl⟩)
    · rcases List.mem_cons.mp hb with rfl | hb'
      · exact Or.inr (Or.inl ⟨a, ha', rfl⟩)
      · rcases ih ha' hb' with h | h
        · exact Or.inl (Or.inr h)
        · exact Or.inr (Or.inr h)

/-- A successful lookup returns one of the bindings. -/
theorem mem_of_lookup_eq_some {inv : List (String × SectionInventory)}
    {x : String} {i : SectionInventory} (h : inv.lookup x = some i) :
    (x, i) ∈ inv := by
  induction inv with
  | nil => simp [List.lookup] at h
  | cons p rest ih =>
    simp only [List.lookup] at h
    cases hx : (x == p.1) with
    | true =>
      rw [hx] at h
      obtain rfl := Option.some.inj h
      have hxp : x = p.1 := eq_of_beq hx
      simp [hxp]
    | false =>
      rw [hx] at h
      exact List.mem_cons_of_mem _ (ih h)

/-- With duplicate-free keys, every id holding at least one property of a
kind lands in some cluster of that kind. -/
theorem cluster_coverage (graph : SectionGraph)
    (inv : List (String × SectionInventory)) (k : PropKind)
    (hndk : (inv.map Prod.fst).Nodup) (x : String)
    (hx : 0 < invCountAt inv k x) :
    ∃ c ∈ findAuthorityClusters graph inv k, x ∈ c := by
  obtain ⟨-, -, -, -, o5, -, o7⟩ := clustersLoop_spec graph.edges inv k inv []
    (by simp) (fun p hp => lookup_eq_some_of_nodup hndk hp)
  unfold invCountAt at hx
  cases hl : inv.lookup x with
  | none =>
    rw [hl] at hx
    simp at hx
  | some i =>
    rw [hl] at hx
    have hmem : (x, i) ∈ inv := mem_of_lookup_eq_some hl
    have hvx := o7 (x, i) hmem hx
    rcases (o5 x).mp hvx with h0 | hc
    · simp at h0
    · exact hc

/-- C10 counterexample: every section of the one-section graph has an
inventory binding, yet the inventory holds a second, ghost key with a
property of the kind, and the cluster finder, which seeds from inventory
keys rather than sections, returns two date clusters. -/
theorem C10_counterexample :
    graphGhost.nodes = [mkSec "a" "x"] ∧
    invGhost.lookup (mkSec "a" "x").id = some (invD [d1]) ∧
    findAuthorityClusters graphGhost invGhost .date = [["a"], ["ghost"]] ∧
    1 < (findAuthorityClusters graphGhost invGhost .date).length :=
  ⟨rfl, rfl, by decide, by decide⟩

/-- C10 (amended): when the inventory keys are duplicate-free and every key
is the id of some section, any two sections with distinct ids, both bound,
jointly holding at least one property of a kind are joined directly by an
edge of that kind in the built graph; consequently the cluster finder
returns at most one cluster for that kind, and every bound section with at
least one property of the kind lies in that single cluster.  When a key
belongs to no section (the ghost case) the single-cluster consequence
fails. -/
theorem C10_amended (sections : List Section')
    (inv : List (String × SectionInventory)) (k : PropKind)
    (hndk : (inv.map Prod.fst).Nodup)
    (hkeys : ∀ x ∈ inv.map Prod.fst, ∃ A ∈ sections, A.id = x) :
    (∀ A ∈ sections, ∀ B ∈ sections, A.id ≠ B.id →
      ∀ iA iB, inv.lookup A.id = some iA → inv.lookup B.id = some iB →
      0 < (iA.props k).length + (iB.props k).length →
      ∃ e ∈ (buildGraph sections inv).edges, e.prop = k ∧
        ((e.from' = A.id ∧ e.to' = B.id) ∨ (e.from' = B.id ∧ e.to' = A.id))) ∧
    (findAuthorityClusters (buildGraph sections inv) inv k).length ≤ 1 ∧
    (∀ A ∈ sections, ∀ iA, inv.lookup A.id = some iA → 0 < (iA.props k).length →
      ∀ c ∈ findAuthorityClusters (buildGraph sections inv) inv k, A.id ∈ c) := by
  have hedge : ∀ A ∈ sections, ∀ B ∈ sections, A.id ≠ B.id →
      ∀ iA iB, inv.lookup A.id = some iA → inv.lookup B.id = some iB →
      0 < (iA.props k).length + (iB.props k).length →
      ∃ e ∈ (buildGraph sections inv).edges, e.prop = k ∧
        ((e.from' = A.id ∧ e.to' = B.id) ∨ (e.from' = B.id ∧ e.to' = A.id)) := by
    intro A hA B hB hid iA iB hiA hiB hpos
    have hne : A ≠ B := fun h => hid (by rw [h])
    rcases pairsOf_cover hA hB hne with hp | hp
    · obtain ⟨e, he, hf, ht, hk⟩ :=
        edge_exists_of_counts sections inv A B iA iB k hp hiA hiB hpos
      exact ⟨e, he, hk, Or.inl ⟨hf, ht⟩⟩
    · obtain ⟨e, he, hf, ht, hk⟩ :=
        edge_exists_of_counts sections inv B A iB iA k hp hiB hiA (by omega)
      exact ⟨e, he, hk, Or.inr ⟨hf, ht⟩⟩
  have hlen : (findAuthorityClusters (buildGraph sections inv) inv k).length ≤ 1 := by
    obtain ⟨o1, o2, o3, o4, -, -, -⟩ :=
      clustersLoop_spec (buildGraph sections inv).edges inv k inv []
        (by simp) (fun p hp => lookup_eq_some_of_nodup hndk hp)
    by_contra hgt
    push_neg at hgt
    cases hcl : findAuthorityClusters (buildGraph sections inv) inv k with
    | nil =>
      rw [hcl] at hgt
      simp at hgt
    | cons c rest =>
      cases rest with
      | nil =>
        rw [hcl] at hgt
        simp at hgt
      | cons d rest2 =>
        have hcmem : c ∈ findAuthorityClusters (buildGraph sections inv) inv k := by
          rw [hcl]; exact List.mem_cons_self _ _
        have hdmem : d ∈ findAuthorityClusters (buildGraph sections inv) inv k := by
          rw [hcl]; exact List.mem_cons_of_mem _ (List.mem_cons_self _ _)
        obtain ⟨s, hs, hschar⟩ := o1 c hcmem
        obtain ⟨t, ht, htchar⟩ := o1 d hdmem
        have hsgood := (o2 c hcmem s hs).1
        have htgood := (o2 d hdmem t ht).1
        have hdisj : ∀ x ∈ c, x ∉ d := by
          have o4' : (findAuthorityClusters (buildGraph sections inv) inv k).Pairwise
              (fun c d => ∀ x ∈ c, x ∉ d) := o4
          rw [hcl] at o4'
          exact (List.pairwise_cons.mp o4').1 d (List.mem_cons_self _ _)
        obtain ⟨A, hA, hAid⟩ := hkeys s (mem_keys_of_invCountAt_pos hsgood)
        obtain ⟨B, hB, hBid⟩ := hkeys t (mem_keys_of_invCountAt_pos htgood)
        by_cases hst : s = t
        · exact hdisj s hs (hst ▸ ht)
        · have hsl : ∃ i, inv.lookup s = some i ∧ 0 < (i.props k).length := by
            unfold invCountAt at hsgood
            cases hl : inv.lookup s with
            | none => rw [hl] at hsgood; simp at hsgood
            | some i => rw [hl] at hsgood; exact ⟨i, rfl, hsgood⟩
          have htl : ∃ i, inv.lookup t = some i ∧ 0 < (i.props k).length := by
            unfold invCountAt at htgood
            cases hl : inv.lookup t with
            | none => rw [hl] at htgood; simp at htgood
            | some i => rw [hl] at htgood; exact ⟨i, rfl, htgood⟩
          obtain ⟨iA, hiA, hposA⟩ := hsl
          obtain ⟨iB, hiB, hposB⟩ := htl
          have hid : A.id ≠ B.id := by
            rw [hAid, hBid]; exact hst
          obtain ⟨e, he, hk, hor⟩ := hedge A hA B hB hid iA iB
            (by rw [hAid]; exact hiA) (by rw [hBid]; exact hiB) (by omega)
          have hadj : adjE (buildGraph sections inv).edges inv k s t := by
            refine ⟨hsgood, htgood, e, he, hk, ?_⟩
            rcases hor with ⟨h1, h2⟩ | ⟨h1, h2⟩
            · exact Or.inl ⟨by rw [h1, hAid], by rw [h2, hBid]⟩
            · exact Or.inr ⟨by rw [h1, hBid], by rw [h2, hAid]⟩
          have htc : t ∈ c := (hschar t).mpr (Relation.ReflTransGen.single hadj)
          exact hdisj t htc ht
  refine ⟨hedge, hlen, ?_⟩
  intro A hA iA hiA hpos c hc
  obtain ⟨c0, hc0, hx⟩ := cluster_coverage (buildGraph sections inv) inv k hndk A.id
    (by unfold invCountAt; rw [hiA]; exact hpos)
  cases hcl : findAuthorityClusters (buildGraph sections inv) inv k with
  | nil =>
    rw [hcl] at hc
    simp at hc
  | cons c1 rest =>
    have hnil : rest = [] := by
      rw [hcl] at hlen
      simp only [List.length_cons] at hlen
      exact List.eq_nil_of_length_eq_zero (by omega)
    subst hnil
    rw [hcl] at hc hc0
    obtain rfl : c = c1 := List.mem_singleton.mp hc
    obtain rfl : c0 = c := List.mem_singleton.mp hc0
    exact hx

/-- C10 witness: the amended statement applied to the four-section shared
date input, whose inventory keys are exactly the section ids. -/
theorem C10_amended_witness :
    (∀ A ∈ [secT1, secT2, secU1, secU2], ∀ B ∈ [secT1, secT2, secU1, secU2],
      A.id ≠ B.id → ∀ iA iB, invTU.lookup A.id = some iA →
      invTU.lookup B.id = some iB →
      0 < (iA.props .date).length + (iB.props .date).length →
      ∃ e ∈ (buildGraph [secT1, secT2, secU1, secU2] invTU).edges, e.prop = .date ∧
        ((e.from' = A.id ∧ e.to' = B.id) ∨ (e.from' = B.id ∧ e.to' = A.id))) ∧
    (findAuthorityClusters (buildGraph [secT1, secT2, secU1, secU2] invTU)
        invTU .date).length ≤ 1 ∧
    (∀ A ∈ [secT1, secT2, secU1, secU2], ∀ iA, invTU.lookup A.id = some iA →
      0 < (iA.props .date).length →
      ∀ c ∈ findAuthorityClusters (buildGraph [secT1, secT2, secU1, secU2] invTU)
          invTU .date, A.id ∈ c) :=
  C10_amended [secT1, secT2, secU1, secU2] invTU .date (by decide) (by decide)

end CompletionEngine
